import Mathlib

/-!
Game of Life on a 20x20 field (`ou3.c`): a shallow embedding of the simulation
core of `ou3.c` and theorems about it.

Memory model.  `main` owns one object, `cell game[ROWS][COLS]`: 400 cells laid out row-major.
Every function receives it as `cell field[rows][cols]` (a pointer to rows of
`cols` cells), so the lvalue `field[r][c]` designates the cell at offset
`r * cols + c` from the start of the object, where `cols` is the *declared*
row length of the parameter (`COLS` in `countAliveNeighbours`).  An access whose
offset lies in `[0, 400)` hits that cell of the object; an access whose offset
lies outside the object is outside what this model tracks and is reported as
`none`.  C `int` values are modelled by `Int` (no value in the program comes
near the `int` limits for the inputs considered), `char` by `Char`.
-/

namespace GameOfLife

/-! ## Constants and data structure -/

/-- `#define ALIVE 'X'` -/
def ALIVE : Char := 'X'

/-- `#define DEAD '.'` -/
def DEAD : Char := '.'

/-- `#define ROWS 20` -/
abbrev ROWS : Int := 20

/-- `#define COLS 20` -/
abbrev COLS : Int := 20

/-- `typedef struct { char current; char next; } cell;` -/
structure cell where
  current : Char
  next : Char
deriving DecidableEq, Repr

/-- The object `cell game[ROWS][COLS]` of `main`: `ROWS * COLS = 400` cells,
stored row after row. -/
abbrev Field := Fin 400 → cell

/-- Offset of `field[r][c]` for a parameter declared `cell field[..][cols]`;
`none` when the offset falls outside the 400-cell object. -/
def index? (cols r c : Int) : Option (Fin 400) :=
  if h : 0 ≤ r * cols + c ∧ r * cols + c < 400 then
    some ⟨(r * cols + c).toNat, (Int.toNat_lt h.1).mpr h.2⟩
  else none

/-- Read of `field[r][c]`. -/
def Field.load (field : Field) (cols r c : Int) : Option cell :=
  (index? cols r c).map field

/-- The assignment `field[r][c].current = v`. -/
def Field.storeCurrent (field : Field) (cols r c : Int) (v : Char) : Option Field :=
  (index? cols r c).map fun k j =>
    if j = k then { current := v, next := (field j).next } else field j

/-- The assignment `field[r][c].next = v`. -/
def Field.storeNext (field : Field) (cols r c : Int) (v : Char) : Option Field :=
  (index? cols r c).map fun k j =>
    if j = k then { current := (field j).current, next := v } else field j

/-- The cell in row `r`, column `c` of the 20x20 field. -/
def Field.cellAt (field : Field) (r c : Fin 20) : cell :=
  field ⟨r.val * 20 + c.val, by omega⟩

/-! ## Loops -/

/-- Body of a counting loop run `n` more times, the loop variable being `i`. -/
def forLoop {σ : Type} (n : Nat) (i : Int) (body : Int → σ → Option σ) (s : σ) : Option σ :=
  match n with
  | 0 => some s
  | k + 1 => (body i s).bind (forLoop k (i + 1) body)

/-- The statement `for (int i = lo; i < hi; i++) body`. -/
def forRange {σ : Type} (lo hi : Int) (body : Int → σ → Option σ) (s : σ) : Option σ :=
  forLoop (hi - lo).toNat lo body s

/-! ## The functions of `ou3.c` -/

/-- `clearField`: every cell's `current` becomes `DEAD`. -/
def clearField (rows cols : Int) (field : Field) : Option Field :=
  forRange 0 rows (fun r fld =>
    forRange 0 cols (fun c fld => fld.storeCurrent cols r c DEAD) fld) field

/-- `loadGlider`: five stores. -/
def loadGlider (_rows cols : Int) (field : Field) : Option Field :=
  (field.storeCurrent cols 0 1 ALIVE).bind fun f1 =>
  (f1.storeCurrent cols 1 2 ALIVE).bind fun f2 =>
  (f2.storeCurrent cols 2 0 ALIVE).bind fun f3 =>
  (f3.storeCurrent cols 2 1 ALIVE).bind fun f4 =>
  f4.storeCurrent cols 2 2 ALIVE

/-- `loadCustom`: the `do ... while` loop over the coordinates that `scanf`
delivers.  The body runs once for the first pair `p` and once more for each
pair of `ps` (one per separator character that is not a newline). -/
def loadCustom (rows cols : Int) (field : Field) (p : Int × Int) (ps : List (Int × Int)) :
    Option Field :=
  match ps with
  | [] => field.storeCurrent cols p.1 p.2 ALIVE
  | q :: qs => (field.storeCurrent cols p.1 p.2 ALIVE).bind fun f1 => loadCustom rows cols f1 q qs

/-- `countAliveNeighbours`: here `rows`, `cols` are the coordinates of the cell
and the field parameter is declared `cell field[ROWS][COLS]`. -/
def countAliveNeighbours (rows cols : Int) (field : Field) : Option Int :=
  forRange (rows - 1) (rows + 2) (fun r AliveNeighbours =>
    if 0 ≤ r ∧ r < ROWS then
      forRange (cols - 1) (cols + 2) (fun c AliveNeighbours =>
        if 0 ≤ c ∧ c < COLS then
          if ¬(r = rows ∧ c = cols) then
            (field.load COLS r c).bind fun x =>
              if x.current = ALIVE then some (AliveNeighbours + 1) else some AliveNeighbours
          else some AliveNeighbours
        else some AliveNeighbours) AliveNeighbours
    else some AliveNeighbours) 0

/-- `updateWorld`: the loops run to `ROWS`, `COLS`; the field is indexed with
the declared row length `cols`. -/
def updateWorld (_rows cols : Int) (field : Field) : Option Field :=
  forRange 0 ROWS (fun r fld =>
    forRange 0 COLS (fun c fld =>
      (fld.load cols r c).bind fun x => fld.storeCurrent cols r c x.next) fld) field

/-- `NewGeneration`: fill every `next`, then call `updateWorld`. -/
def NewGeneration (rows cols : Int) (field : Field) : Option Field :=
  (forRange 0 rows (fun r fld =>
    forRange 0 cols (fun c fld =>
      (countAliveNeighbours r c fld).bind fun Neighbours =>
      (fld.load cols r c).bind fun x =>
        if x.current = ALIVE then
          (if Neighbours < 2 then fld.storeNext cols r c DEAD else some fld).bind fun fld1 =>
            if Neighbours = 2 ∨ Neighbours = 3 then fld1.storeNext cols r c ALIVE
            else fld1.storeNext cols r c DEAD
        else if Neighbours = 3 then fld.storeNext cols r c ALIVE
        else fld.storeNext cols r c DEAD) fld) field).bind (updateWorld rows cols)

/-- `loadSemaphore`: three stores. -/
def loadSemaphore (_rows cols : Int) (field : Field) : Option Field :=
  (field.storeCurrent cols 8 1 ALIVE).bind fun f1 =>
  (f1.storeCurrent cols 8 2 ALIVE).bind fun f2 =>
  f2.storeCurrent cols 8 3 ALIVE

/-- `loadRandom`: the loops run to `ROWS`, `COLS`.  The randomness source is the
sequence `rand`: after `srand`, the call number `k` of `rand()` returns
`rand k`.  The state of the loops is the field together with the number of
calls of `rand()` made so far. -/
def loadRandom (_rows cols : Int) (field : Field) (rand : Nat → Nat) : Option (Field × Nat) :=
  forRange 0 ROWS (fun r s =>
    forRange 0 COLS (fun c s =>
      let randomnumber : Int := ((rand s.2 : Nat) : Int) % 2 + 1
      if randomnumber = 2 then
        (s.1.storeCurrent cols r c ALIVE).map fun fld => (fld, s.2 + 1)
      else
        (s.1.storeCurrent cols r c DEAD).map fun fld => (fld, s.2 + 1)) s) (field, 0)

/-- `initField`: clear, then load the structure selected by `choice`, the
character that `getStartStateChoice` returns.  `rand` is what `loadRandom` would
draw and `p`, `ps` are the coordinates `loadCustom` would read. -/
def initField (rows cols : Int) (field : Field) (choice : Char) (rand : Nat → Nat)
    (p : Int × Int) (ps : List (Int × Int)) : Option Field :=
  (clearField rows cols field).bind fun fld =>
    if choice = 'g' ∨ choice = 'G' then loadGlider rows cols fld
    else if choice = 's' ∨ choice = 'S' then loadSemaphore rows cols fld
    else if choice = 'r' ∨ choice = 'R' then (loadRandom rows cols fld rand).map Prod.fst
    else loadCustom rows cols fld p ps

/-! ## Specification-side vocabulary -/

/-- State of the cell at `(r, c)`; `none` when `(r, c)` is off the grid. -/
def Field.current? (field : Field) (r c : Int) : Option Char :=
  if h : (0 ≤ r ∧ r < 20) ∧ (0 ≤ c ∧ c < 20) then
    some (field.cellAt ⟨r.toNat, (Int.toNat_lt h.1.1).mpr h.1.2⟩
      ⟨c.toNat, (Int.toNat_lt h.2.1).mpr h.2.2⟩).current
  else none

/-- The offsets `(dr, dc)` in `{-1,0,1} x {-1,0,1}` other than `(0, 0)`. -/
def neighbourOffsets : List (Int × Int) :=
  (List.product [-1, 0, 1] [-1, 0, 1]).filter fun d => decide (d ≠ (0, 0))

/-- Number of offsets whose target lies on the grid and holds an `ALIVE` cell. -/
def aliveNeighbourCount (field : Field) (r c : Int) : Int :=
  ((neighbourOffsets.countP fun d =>
    decide (field.current? (r + d.1) (c + d.2) = some ALIVE) : Nat) : Int)

/-- The rule table: `ALIVE` survives on 2 or 3, a cell that is not `ALIVE` is
born on 3, everything else is `DEAD`. -/
def nextState (cur : Char) (n : Int) : Char :=
  if cur = ALIVE then (if n = 2 ∨ n = 3 then ALIVE else DEAD)
  else if n = 3 then ALIVE else DEAD

/-- Contribution of position `(r, c)` to a neighbour count: 1 when it lies on
the grid and holds an `ALIVE` cell, 0 otherwise. -/
def aliveInd (field : Field) (r c : Int) : Int :=
  if field.current? r c = some ALIVE then 1 else 0

/-- Chebyshev distance between two positions. -/
def chebyshev (r1 c1 r2 c2 : Int) : Nat :=
  max (r1 - r2).natAbs (c1 - c2).natAbs

/-- The field whose `ALIVE` cells are exactly the listed `(row, column)` pairs,
every other cell `DEAD`, and every next-buffer holding `nxt`. -/
def fieldOf (cells : List (Nat × Nat)) (nxt : Char) : Field :=
  fun k => { current := if (k.val / 20, k.val % 20) ∈ cells then ALIVE else DEAD, next := nxt }

/-- The field in which every cell is `ALIVE`. -/
def allAlive : Field := fun _ => { current := ALIVE, next := DEAD }

/-- Access trace of `countAliveNeighbours`: the positions `(r, c)` at which the
loops evaluate `field[r][c]`, in the order of evaluation.  The loops and guards
are those of `countAliveNeighbours`; at the centre the left operand of `&&` is
false and `field[r][c]` is not evaluated. -/
def countAliveNeighboursReads (rows cols : Int) : Option (List (Int × Int)) :=
  forRange (rows - 1) (rows + 2) (fun r reads =>
    if 0 ≤ r ∧ r < ROWS then
      forRange (cols - 1) (cols + 2) (fun c reads =>
        if 0 ≤ c ∧ c < COLS then
          if ¬(r = rows ∧ c = cols) then some (reads ++ [(r, c)])
          else some reads
        else some reads) reads
    else some reads) []

/-- Access trace of the two nested loops of `NewGeneration`: for each cell the
positions read by `countAliveNeighbours` and then the cell itself, whose
`current` is tested. -/
def NewGenerationReads (rows cols : Int) : Option (List (Int × Int)) :=
  forRange 0 rows (fun r reads =>
    forRange 0 cols (fun c reads =>
      (countAliveNeighboursReads r c).bind fun l => some (reads ++ l ++ [(r, c)])) reads) []

/-- The reads of `countAliveNeighbours rows cols` at position `(r, c)` of a row
that is on the grid: the position itself unless the column is off the grid or
the position is the centre. -/
def readsAt (rows cols r c : Int) : List (Int × Int) :=
  if (0 ≤ c ∧ c < 20) ∧ ¬(r = rows ∧ c = cols) then [(r, c)] else []

/-- The reads of `countAliveNeighbours rows cols` in row `r`: none when the row
is off the grid. -/
def readsRow (rows cols r : Int) : List (Int × Int) :=
  if 0 ≤ r ∧ r < 20 then
    readsAt rows cols r (cols - 1) ++ readsAt rows cols r cols ++ readsAt rows cols r (cols + 1)
  else []

/-! ## Accessor lemmas -/

theorem neighbourOffsets_eq :
    neighbourOffsets = [(-1, -1), (-1, 0), (-1, 1), (0, -1), (0, 1), (1, -1), (1, 0), (1, 1)] := by
  decide

theorem exists_fin_of_bounds (x : Int) (h0 : 0 ≤ x) (h1 : x < 20) :
    ∃ k : Fin 20, ((k : Nat) : Int) = x :=
  ⟨⟨x.toNat, (Int.toNat_lt h0).mpr h1⟩, Int.toNat_of_nonneg h0⟩

theorem index?_coe (r c : Fin 20) :
    index? 20 (r : Nat) (c : Nat) = some ⟨r.val * 20 + c.val, by omega⟩ := by
  have hr := r.isLt
  have hc := c.isLt
  unfold index?
  rw [dif_pos (by omega)]
  simp only [Option.some.injEq, Fin.mk.injEq]
  omega

theorem load_coe (field : Field) (r c : Fin 20) :
    field.load 20 (r : Nat) (c : Nat) = some (field.cellAt r c) := by
  simp [Field.load, index?_coe, Field.cellAt]

theorem current?_coe (field : Field) (r c : Fin 20) :
    field.current? (r : Nat) (c : Nat) = some (field.cellAt r c).current := by
  have hr := r.isLt
  have hc := c.isLt
  unfold Field.current?
  rw [dif_pos (by omega)]
  simp

theorem current?_none (field : Field) (r c : Int)
    (h : ¬((0 ≤ r ∧ r < 20) ∧ (0 ≤ c ∧ c < 20))) : field.current? r c = none := by
  unfold Field.current?
  rw [dif_neg h]

theorem flat_inj (r c r0 c0 : Fin 20) :
    (r.val * 20 + c.val = r0.val * 20 + c0.val) ↔ (r = r0 ∧ c = c0) := by
  have hc := c.isLt
  have hc0 := c0.isLt
  constructor
  · intro h
    exact ⟨Fin.ext (by omega), Fin.ext (by omega)⟩
  · rintro ⟨rfl, rfl⟩
    rfl

theorem storeNext_coe (field : Field) (r c : Fin 20) (v : Char) :
    ∃ g, field.storeNext 20 (r : Nat) (c : Nat) v = some g ∧
      ∀ r1 c1 : Fin 20, g.cellAt r1 c1 =
        if r1 = r ∧ c1 = c then { current := (field.cellAt r c).current, next := v }
        else field.cellAt r1 c1 := by
  refine ⟨_, by simp only [Field.storeNext, index?_coe, Option.map_some']; rfl, ?_⟩
  intro r1 c1
  by_cases h : r1 = r ∧ c1 = c
  · obtain ⟨rfl, rfl⟩ := h
    simp [Field.cellAt]
  · have h2 : ¬(r1.val * 20 + c1.val = r.val * 20 + c.val) := fun e => h ((flat_inj _ _ _ _).mp e)
    simp [Field.cellAt, h, h2]

theorem storeCurrent_coe (field : Field) (r c : Fin 20) (v : Char) :
    ∃ g, field.storeCurrent 20 (r : Nat) (c : Nat) v = some g ∧
      ∀ r1 c1 : Fin 20, g.cellAt r1 c1 =
        if r1 = r ∧ c1 = c then { current := v, next := (field.cellAt r c).next }
        else field.cellAt r1 c1 := by
  refine ⟨_, by simp only [Field.storeCurrent, index?_coe, Option.map_some']; rfl, ?_⟩
  intro r1 c1
  by_cases h : r1 = r ∧ c1 = c
  · obtain ⟨rfl, rfl⟩ := h
    simp [Field.cellAt]
  · have h2 : ¬(r1.val * 20 + c1.val = r.val * 20 + c.val) := fun e => h ((flat_inj _ _ _ _).mp e)
    simp [Field.cellAt, h, h2]



/-! ## Loop lemmas -/

theorem forLoop_inv {σ : Type} (I : Int → σ → Prop) (body : Int → σ → Option σ) :
    ∀ (n : Nat) (lo : Int) (s : σ), I lo s →
      (∀ i t, lo ≤ i → i < lo + n → I i t → ∃ t1, body i t = some t1 ∧ I (i + 1) t1) →
      ∃ s1, forLoop n lo body s = some s1 ∧ I (lo + n) s1 := by
  intro n
  induction n with
  | zero =>
    intro lo s h0 _
    exact ⟨s, rfl, by simpa using h0⟩
  | succ k ih =>
    intro lo s h0 hstep
    obtain ⟨t1, hb, ht1⟩ := hstep lo s (le_refl _) (by push_cast; omega) h0
    obtain ⟨s1, hs1, hI⟩ := ih (lo + 1) t1 ht1 (fun i t hlo hhi hi =>
      hstep i t (by omega) (by push_cast; omega) hi)
    refine ⟨s1, ?_, ?_⟩
    · simp only [forLoop, hb, Option.some_bind, hs1]
    · have e : lo + ((k + 1 : Nat) : Int) = lo + 1 + (k : Int) := by push_cast; omega
      rw [e]
      exact hI

theorem forRange_inv {σ : Type} (I : Int → σ → Prop) (body : Int → σ → Option σ)
    (lo hi : Int) (s : σ) (hle : lo ≤ hi) (h0 : I lo s)
    (hstep : ∀ i t, lo ≤ i → i < hi → I i t → ∃ t1, body i t = some t1 ∧ I (i + 1) t1) :
    ∃ s1, forRange lo hi body s = some s1 ∧ I hi s1 := by
  have e : lo + (((hi - lo).toNat : Nat) : Int) = hi := by
    rw [Int.toNat_of_nonneg (by omega)]
    omega
  obtain ⟨s1, hs1, hI⟩ := forLoop_inv I body (hi - lo).toNat lo s h0
    (fun i t hlo hhi hi1 => hstep i t hlo (by omega) hi1)
  exact ⟨s1, hs1, e ▸ hI⟩

/-- Row-major scan of the whole 20x20 field: an invariant indexed by the number
of cells already visited. -/
theorem scan_inv {σ : Type} (I : Int → σ → Prop) (body : Int → Int → σ → Option σ) (s : σ)
    (h0 : I 0 s)
    (hstep : ∀ (r c : Fin 20) (t : σ), I ((r : Nat) * 20 + (c : Nat)) t →
      ∃ t1, body (r : Nat) (c : Nat) t = some t1 ∧ I ((r : Nat) * 20 + (c : Nat) + 1) t1) :
    ∃ s1, forRange 0 20 (fun r t => forRange 0 20 (fun c u => body r c u) t) s = some s1 ∧
      I 400 s1 := by
  have h := forRange_inv (fun r t => I (r * 20) t)
    (fun r t => forRange 0 20 (fun c u => body r c u) t) 0 20 s (by omega) (by simpa using h0) ?_
  · simpa using h
  · intro r t hr0 hr1 hI
    obtain ⟨rr, rfl⟩ := exists_fin_of_bounds r hr0 hr1
    have h2 := forRange_inv (fun c u => I ((rr : Nat) * 20 + c) u)
      (fun c u => body (rr : Nat) c u) 0 20 t (by omega) (by simpa using hI) ?_
    · obtain ⟨t1, ht1, hI1⟩ := h2
      refine ⟨t1, ht1, ?_⟩
      have e : ((rr : Nat) : Int) * 20 + 20 = (((rr : Nat) : Int) + 1) * 20 := by ring
      show I ((((rr : Nat) : Int) + 1) * 20) t1
      rw [← e]
      exact hI1
    · intro c u hc0 hc1 hIc
      obtain ⟨cc, rfl⟩ := exists_fin_of_bounds c hc0 hc1
      obtain ⟨u1, hu1, hI2⟩ := hstep rr cc u hIc
      exact ⟨u1, hu1, by simpa [add_assoc] using hI2⟩

theorem forRange_three {σ : Type} (a : Int) (body : Int → σ → Option σ) (s : σ) :
    forRange (a - 1) (a + 2) body s =
      (body (a - 1) s).bind fun s1 => (body a s1).bind fun s2 => body (a + 1) s2 := by
  have e : (a + 2 - (a - 1)).toNat = 3 := by
    have : a + 2 - (a - 1) = 3 := by omega
    rw [this]; rfl
  unfold forRange
  rw [e]
  simp only [forLoop, sub_add_cancel]
  congr 1
  funext s1
  congr 1
  funext s2
  cases body (a + 1) s2 <;> rfl



theorem cellStep_eq (field : Field) (rows cols r c n : Int) (hr : 0 ≤ r ∧ r < 20) :
    (if 0 ≤ c ∧ c < COLS then
      if ¬(r = rows ∧ c = cols) then
        (field.load COLS r c).bind fun x =>
          if x.current = ALIVE then some (n + 1) else some n
      else some n
    else some n) = some (n + if r = rows ∧ c = cols then 0 else aliveInd field r c) := by
  by_cases hc : 0 ≤ c ∧ c < COLS
  · obtain ⟨rr, rfl⟩ := exists_fin_of_bounds r hr.1 hr.2
    obtain ⟨cc, rfl⟩ := exists_fin_of_bounds c hc.1 hc.2
    rw [if_pos hc]
    by_cases hcen : ((rr : Nat) : Int) = rows ∧ ((cc : Nat) : Int) = cols
    · simp [hcen]
    · rw [if_pos hcen, if_neg hcen, load_coe, Option.some_bind, aliveInd, current?_coe]
      by_cases ha : (field.cellAt rr cc).current = ALIVE
      · simp [ha]
      · simp [ha]
  · rw [if_neg hc, aliveInd, current?_none field r c (fun h => hc h.2)]
    simp

theorem rowStep_eq (field : Field) (rows cols r n : Int) :
    (if 0 ≤ r ∧ r < ROWS then
      forRange (cols - 1) (cols + 2) (fun c AliveNeighbours =>
        if 0 ≤ c ∧ c < COLS then
          if ¬(r = rows ∧ c = cols) then
            (field.load COLS r c).bind fun x =>
              if x.current = ALIVE then some (AliveNeighbours + 1) else some AliveNeighbours
          else some AliveNeighbours
        else some AliveNeighbours) n
    else some n) =
    some (n + (if r = rows ∧ cols - 1 = cols then 0 else aliveInd field r (cols - 1))
      + (if r = rows ∧ cols = cols then 0 else aliveInd field r cols)
      + (if r = rows ∧ cols + 1 = cols then 0 else aliveInd field r (cols + 1))) := by
  by_cases hr : 0 ≤ r ∧ r < ROWS
  · have hbody : (fun (c : Int) (AliveNeighbours : Int) =>
        if 0 ≤ c ∧ c < COLS then
          if ¬(r = rows ∧ c = cols) then
            (field.load COLS r c).bind fun x =>
              if x.current = ALIVE then some (AliveNeighbours + 1) else some AliveNeighbours
          else some AliveNeighbours
        else some AliveNeighbours) =
        fun c AliveNeighbours =>
          some (AliveNeighbours + if r = rows ∧ c = cols then 0 else aliveInd field r c) := by
      funext c m
      exact cellStep_eq field rows cols r c m hr
    rw [if_pos hr, hbody, forRange_three]
    rfl
  · have e : ∀ c, aliveInd field r c = 0 := fun c => by
      rw [aliveInd, current?_none field r c (fun h => hr h.1)]
      simp
    rw [if_neg hr]
    simp [e]

theorem countAliveNeighbours_eq_sum (field : Field) (rows cols : Int) :
    countAliveNeighbours rows cols field = some
      (aliveInd field (rows - 1) (cols - 1) + aliveInd field (rows - 1) cols
        + aliveInd field (rows - 1) (cols + 1) + aliveInd field rows (cols - 1)
        + aliveInd field rows (cols + 1) + aliveInd field (rows + 1) (cols - 1)
        + aliveInd field (rows + 1) cols + aliveInd field (rows + 1) (cols + 1)) := by
  unfold countAliveNeighbours
  have hbody : (fun (r : Int) (AliveNeighbours : Int) =>
      if 0 ≤ r ∧ r < ROWS then
        forRange (cols - 1) (cols + 2) (fun c AliveNeighbours =>
          if 0 ≤ c ∧ c < COLS then
            if ¬(r = rows ∧ c = cols) then
              (field.load COLS r c).bind fun x =>
                if x.current = ALIVE then some (AliveNeighbours + 1) else some AliveNeighbours
            else some AliveNeighbours
          else some AliveNeighbours) AliveNeighbours
      else some AliveNeighbours) =
      fun r n =>
        some (n + (if r = rows ∧ cols - 1 = cols then 0 else aliveInd field r (cols - 1))
          + (if r = rows ∧ cols = cols then 0 else aliveInd field r cols)
          + (if r = rows ∧ cols + 1 = cols then 0 else aliveInd field r (cols + 1))) := by
    funext r n
    exact rowStep_eq field rows cols r n
  rw [hbody, forRange_three]
  simp only [Option.some_bind]
  have h1 : ¬(rows - 1 = rows) := by omega
  have h2 : ¬(rows + 1 = rows) := by omega
  have h3 : ¬(cols - 1 = cols) := by omega
  have h4 : ¬(cols + 1 = cols) := by omega
  simp only [h1, h2, h3, h4, false_and, and_false, if_false, and_self, if_true, true_and]
  congr 1
  ring

theorem aliveNeighbourCount_eq_sum (field : Field) (r c : Int) :
    aliveNeighbourCount field r c =
      aliveInd field (r - 1) (c - 1) + aliveInd field (r - 1) c
        + aliveInd field (r - 1) (c + 1) + aliveInd field r (c - 1)
        + aliveInd field r (c + 1) + aliveInd field (r + 1) (c - 1)
        + aliveInd field (r + 1) c + aliveInd field (r + 1) (c + 1) := by
  unfold aliveNeighbourCount
  rw [neighbourOffsets_eq]
  simp only [List.countP_cons, List.countP_nil, aliveInd, Int.add_neg_one, add_zero]
  push_cast
  simp only [decide_eq_true_eq]
  ring

theorem countAliveNeighbours_eq (field : Field) (rows cols : Int) :
    countAliveNeighbours rows cols field = some (aliveNeighbourCount field rows cols) := by
  rw [countAliveNeighbours_eq_sum, aliveNeighbourCount_eq_sum]



/-! ## The generation step -/

theorem current?_congr (f g : Field)
    (h : ∀ r c : Fin 20, (g.cellAt r c).current = (f.cellAt r c).current) (r c : Int) :
    g.current? r c = f.current? r c := by
  by_cases hin : (0 ≤ r ∧ r < 20) ∧ (0 ≤ c ∧ c < 20)
  · obtain ⟨rr, rfl⟩ := exists_fin_of_bounds r hin.1.1 hin.1.2
    obtain ⟨cc, rfl⟩ := exists_fin_of_bounds c hin.2.1 hin.2.2
    rw [current?_coe, current?_coe, h]
  · rw [current?_none _ _ _ hin, current?_none _ _ _ hin]

theorem aliveNeighbourCount_congr (f g : Field)
    (h : ∀ r c : Fin 20, (g.cellAt r c).current = (f.cellAt r c).current) (r c : Int) :
    aliveNeighbourCount g r c = aliveNeighbourCount f r c := by
  unfold aliveNeighbourCount
  simp only [current?_congr f g h]

/-- One execution of the body of the inner loop of `NewGeneration` at an
in-range cell: only `next` of that cell changes, to the rule's value. -/
theorem ruleStep_eq (t : Field) (r c : Fin 20) :
    ∃ t1,
      ((countAliveNeighbours (r : Nat) (c : Nat) t).bind fun Neighbours =>
        (t.load 20 (r : Nat) (c : Nat)).bind fun x =>
          if x.current = ALIVE then
            (if Neighbours < 2 then t.storeNext 20 (r : Nat) (c : Nat) DEAD else some t).bind
              fun fld1 =>
                if Neighbours = 2 ∨ Neighbours = 3 then fld1.storeNext 20 (r : Nat) (c : Nat) ALIVE
                else fld1.storeNext 20 (r : Nat) (c : Nat) DEAD
          else if Neighbours = 3 then t.storeNext 20 (r : Nat) (c : Nat) ALIVE
          else t.storeNext 20 (r : Nat) (c : Nat) DEAD) = some t1 ∧
      ∀ r1 c1 : Fin 20, t1.cellAt r1 c1 =
        if r1 = r ∧ c1 = c then
          { current := (t.cellAt r c).current,
            next := nextState (t.cellAt r c).current (aliveNeighbourCount t (r : Nat) (c : Nat)) }
        else t.cellAt r1 c1 := by
  rw [countAliveNeighbours_eq, Option.some_bind, load_coe, Option.some_bind]
  generalize aliveNeighbourCount t (r : Nat) (c : Nat) = n
  by_cases ha : (t.cellAt r c).current = ALIVE
  · rw [if_pos ha]
    by_cases hlt : n < 2
    · obtain ⟨g1, h1, hg1⟩ := storeNext_coe t r c DEAD
      obtain ⟨g2, h2, hg2⟩ := storeNext_coe g1 r c DEAD
      have h23 : ¬(n = 2 ∨ n = 3) := by omega
      rw [if_pos hlt, h1, Option.some_bind, if_neg h23]
      refine ⟨g2, h2, fun r1 c1 => ?_⟩
      rw [hg2, hg1 r c, hg1 r1 c1]
      by_cases e : r1 = r ∧ c1 = c
      · simp [nextState, ha, h23, e]
      · simp [e]
    · rw [if_neg hlt, Option.some_bind]
      by_cases h23 : n = 2 ∨ n = 3
      · obtain ⟨g1, h1, hg1⟩ := storeNext_coe t r c ALIVE
        rw [if_pos h23]
        refine ⟨g1, h1, fun r1 c1 => ?_⟩
        rw [hg1]
        simp [nextState, ha, h23]
      · obtain ⟨g1, h1, hg1⟩ := storeNext_coe t r c DEAD
        rw [if_neg h23]
        refine ⟨g1, h1, fun r1 c1 => ?_⟩
        rw [hg1]
        simp [nextState, ha, h23]
  · rw [if_neg ha]
    by_cases h3 : n = 3
    · obtain ⟨g1, h1, hg1⟩ := storeNext_coe t r c ALIVE
      rw [if_pos h3]
      refine ⟨g1, h1, fun r1 c1 => ?_⟩
      rw [hg1]
      simp [nextState, ha, h3]
    · obtain ⟨g1, h1, hg1⟩ := storeNext_coe t r c DEAD
      rw [if_neg h3]
      refine ⟨g1, h1, fun r1 c1 => ?_⟩
      rw [hg1]
      simp [nextState, ha, h3]

/-- The two nested loops of `NewGeneration`: every `next` holds the rule's
value for the field as it was on entry, every `current` is untouched. -/
theorem fillNext_spec (f : Field) :
    ∃ g,
      forRange 0 ROWS (fun r fld =>
        forRange 0 COLS (fun c fld =>
          (countAliveNeighbours r c fld).bind fun Neighbours =>
          (fld.load COLS r c).bind fun x =>
            if x.current = ALIVE then
              (if Neighbours < 2 then fld.storeNext COLS r c DEAD else some fld).bind fun fld1 =>
                if Neighbours = 2 ∨ Neighbours = 3 then fld1.storeNext COLS r c ALIVE
                else fld1.storeNext COLS r c DEAD
            else if Neighbours = 3 then fld.storeNext COLS r c ALIVE
            else fld.storeNext COLS r c DEAD) fld) f = some g ∧
      ∀ r c : Fin 20, (g.cellAt r c).current = (f.cellAt r c).current ∧
        (g.cellAt r c).next =
          nextState (f.cellAt r c).current (aliveNeighbourCount f (r : Nat) (c : Nat)) := by
  have h := scan_inv
    (fun k (fld : Field) => ∀ r c : Fin 20, (fld.cellAt r c).current = (f.cellAt r c).current ∧
      ((((r : Nat) : Int) * 20 + ((c : Nat) : Int) < k) → (fld.cellAt r c).next =
        nextState (f.cellAt r c).current (aliveNeighbourCount f (r : Nat) (c : Nat))))
    (fun r c fld =>
      (countAliveNeighbours r c fld).bind fun Neighbours =>
      (fld.load COLS r c).bind fun x =>
        if x.current = ALIVE then
          (if Neighbours < 2 then fld.storeNext COLS r c DEAD else some fld).bind fun fld1 =>
            if Neighbours = 2 ∨ Neighbours = 3 then fld1.storeNext COLS r c ALIVE
            else fld1.storeNext COLS r c DEAD
        else if Neighbours = 3 then fld.storeNext COLS r c ALIVE
        else fld.storeNext COLS r c DEAD)
    f (fun r c => ⟨rfl, fun hlt => absurd hlt (by omega)⟩) ?_
  · obtain ⟨g, hg, hI⟩ := h
    refine ⟨g, hg, fun r c => ⟨(hI r c).1, (hI r c).2 (by omega)⟩⟩
  · intro r c t hI
    obtain ⟨t1, ht1, hcell⟩ := ruleStep_eq t r c
    refine ⟨t1, ht1, fun r1 c1 => ?_⟩
    rw [hcell r1 c1]
    by_cases e : r1 = r ∧ c1 = c
    · obtain ⟨rfl, rfl⟩ := e
      simp only [and_self, if_true]
      refine ⟨(hI r1 c1).1, fun _ => ?_⟩
      rw [(hI r1 c1).1, aliveNeighbourCount_congr f t (fun a b => (hI a b).1)]
    · rw [if_neg e]
      refine ⟨(hI r1 c1).1, fun hlt => (hI r1 c1).2 ?_⟩
      have hne : ¬(r1.val * 20 + c1.val = r.val * 20 + c.val) := fun q => e ((flat_inj _ _ _ _).mp q)
      omega



/-- `updateWorld` on the 20x20 field: every `current` receives the cell's `next`. -/
theorem updateWorld_spec (g : Field) :
    ∃ h, updateWorld ROWS COLS g = some h ∧
      ∀ r c : Fin 20, (h.cellAt r c).current = (g.cellAt r c).next ∧
        (h.cellAt r c).next = (g.cellAt r c).next := by
  have hs := scan_inv
    (fun k (t : Field) => ∀ r c : Fin 20, (t.cellAt r c).next = (g.cellAt r c).next ∧
      (t.cellAt r c).current =
        if ((r : Nat) : Int) * 20 + ((c : Nat) : Int) < k then (g.cellAt r c).next
        else (g.cellAt r c).current)
    (fun r c (fld : Field) => (fld.load COLS r c).bind fun x => fld.storeCurrent COLS r c x.next)
    g (fun r c => ⟨rfl, by rw [if_neg (by omega)]⟩) ?_
  · obtain ⟨h, hh, hI⟩ := hs
    refine ⟨h, hh, fun r c => ⟨?_, (hI r c).1⟩⟩
    rw [(hI r c).2, if_pos (by omega)]
  · intro r c t hI
    obtain ⟨t1, ht1, hcell⟩ := storeCurrent_coe t r c (t.cellAt r c).next
    refine ⟨t1, ?_, fun r1 c1 => ?_⟩
    · show (t.load 20 (r : Nat) (c : Nat)).bind
        (fun x => t.storeCurrent 20 (r : Nat) (c : Nat) x.next) = some t1
      rw [load_coe, Option.some_bind]
      exact ht1
    rw [hcell r1 c1]
    by_cases e : r1 = r ∧ c1 = c
    · obtain ⟨rfl, rfl⟩ := e
      simp only [and_self, if_true]
      refine ⟨(hI r1 c1).1, ?_⟩
      rw [if_pos (by omega), (hI r1 c1).1]
    · rw [if_neg e]
      refine ⟨(hI r1 c1).1, ?_⟩
      rw [(hI r1 c1).2]
      have hne : ¬(r1.val * 20 + c1.val = r.val * 20 + c.val) := fun q => e ((flat_inj _ _ _ _).mp q)
      by_cases hlt : ((r1 : Nat) : Int) * 20 + ((c1 : Nat) : Int) < ((r : Nat) : Int) * 20 + ((c : Nat) : Int)
      · rw [if_pos hlt, if_pos (by omega)]
      · rw [if_neg hlt, if_neg (by omega)]

/-- `NewGeneration` on the 20x20 field returns, and in the field it leaves both
`current` and `next` of every cell hold the rule's value computed from the
field as it was on entry. -/
theorem NewGeneration_spec (f : Field) :
    ∃ h, NewGeneration ROWS COLS f = some h ∧
      ∀ r c : Fin 20,
        (h.cellAt r c).current =
          nextState (f.cellAt r c).current (aliveNeighbourCount f (r : Nat) (c : Nat)) ∧
        (h.cellAt r c).next =
          nextState (f.cellAt r c).current (aliveNeighbourCount f (r : Nat) (c : Nat)) := by
  obtain ⟨g, hg, hgs⟩ := fillNext_spec f
  obtain ⟨h, hh, hhs⟩ := updateWorld_spec g
  refine ⟨h, ?_, fun r c => ?_⟩
  · unfold NewGeneration
    rw [hg, Option.some_bind, hh]
  · rw [(hhs r c).1, (hhs r c).2, (hgs r c).2]
    exact ⟨rfl, rfl⟩

/-! ## Consequences of the characterisation -/

theorem ALIVE_ne_DEAD : ALIVE ≠ DEAD := by decide

theorem nextState_alive_iff (cur : Char) (n : Int) :
    nextState cur n = ALIVE ↔ (cur = ALIVE ∧ (n = 2 ∨ n = 3)) ∨ (cur ≠ ALIVE ∧ n = 3) := by
  unfold nextState
  have hne : DEAD ≠ ALIVE := by decide
  by_cases ha : cur = ALIVE
  · by_cases h23 : n = 2 ∨ n = 3
    · simp [ha, h23]
    · simp [ha, h23, hne]
  · by_cases h3 : n = 3
    · simp [ha, h3]
    · simp [ha, h3, hne]

theorem nextState_alive_or_dead (cur : Char) (n : Int) :
    nextState cur n = ALIVE ∨ nextState cur n = DEAD := by
  unfold nextState
  split_ifs <;> simp

theorem aliveInd_nonneg (field : Field) (r c : Int) : 0 ≤ aliveInd field r c := by
  unfold aliveInd
  split_ifs <;> omega

theorem aliveInd_le_one (field : Field) (r c : Int) : aliveInd field r c ≤ 1 := by
  unfold aliveInd
  split_ifs <;> omega

theorem aliveInd_off_grid (field : Field) (r c : Int)
    (h : r < 0 ∨ 20 ≤ r ∨ c < 0 ∨ 20 ≤ c) : aliveInd field r c = 0 := by
  rw [aliveInd, current?_none field r c (by omega)]
  simp

theorem aliveInd_coe (field : Field) (r c : Fin 20) :
    aliveInd field (r : Nat) (c : Nat) = if (field.cellAt r c).current = ALIVE then 1 else 0 := by
  rw [aliveInd, current?_coe]
  simp

theorem aliveInd_eq_zero_of_none_alive (field : Field)
    (h : ∀ r c : Fin 20, (field.cellAt r c).current ≠ ALIVE) (r c : Int) :
    aliveInd field r c = 0 := by
  by_cases hin : (0 ≤ r ∧ r < 20) ∧ (0 ≤ c ∧ c < 20)
  · obtain ⟨rr, rfl⟩ := exists_fin_of_bounds r hin.1.1 hin.1.2
    obtain ⟨cc, rfl⟩ := exists_fin_of_bounds c hin.2.1 hin.2.2
    rw [aliveInd_coe, if_neg (h rr cc)]
  · exact aliveInd_off_grid field r c (by omega)

theorem aliveInd_congr (f g : Field)
    (h : ∀ r c : Fin 20, (g.cellAt r c).current = (f.cellAt r c).current) (r c : Int) :
    aliveInd g r c = aliveInd f r c := by
  unfold aliveInd
  rw [current?_congr f g h]

/-! ## The claims -/

/-- C1: for every 20x20 field and every cell `(r, c)` holding one of the two
states, `NewGeneration` returns, and afterwards the cell is `ALIVE` if and only
if it was `ALIVE` and `n` is 2 or 3, or it was `DEAD` and `n` is 3, where `n` is
`countAliveNeighbours (r, c)` on the field as it was before the call; in every
other case the cell is `DEAD`. -/
theorem C1_NewGeneration_rule (f : Field) (r c : Fin 20)
    (hcell : (f.cellAt r c).current = ALIVE ∨ (f.cellAt r c).current = DEAD) :
    ∃ g n, NewGeneration ROWS COLS f = some g ∧
      countAliveNeighbours (r : Nat) (c : Nat) f = some n ∧
      ((g.cellAt r c).current = ALIVE ↔
        ((f.cellAt r c).current = ALIVE ∧ (n = 2 ∨ n = 3)) ∨
        ((f.cellAt r c).current = DEAD ∧ n = 3)) ∧
      (¬(((f.cellAt r c).current = ALIVE ∧ (n = 2 ∨ n = 3)) ∨
          ((f.cellAt r c).current = DEAD ∧ n = 3)) →
        (g.cellAt r c).current = DEAD) := by
  obtain ⟨g, hg, hspec⟩ := NewGeneration_spec f
  have hiff : (g.cellAt r c).current = ALIVE ↔
      ((f.cellAt r c).current = ALIVE ∧
          (aliveNeighbourCount f (r : Nat) (c : Nat) = 2 ∨
            aliveNeighbourCount f (r : Nat) (c : Nat) = 3)) ∨
        ((f.cellAt r c).current = DEAD ∧ aliveNeighbourCount f (r : Nat) (c : Nat) = 3) := by
    rw [(hspec r c).1, nextState_alive_iff]
    rcases hcell with ha | hd
    · simp [ha, ALIVE_ne_DEAD]
    · have hne : DEAD ≠ ALIVE := fun e => ALIVE_ne_DEAD e.symm
      simp [hd, hne]
  refine ⟨g, aliveNeighbourCount f (r : Nat) (c : Nat), hg, countAliveNeighbours_eq f _ _, hiff, ?_⟩
  intro hnot
  rcases nextState_alive_or_dead (f.cellAt r c).current
      (aliveNeighbourCount f (r : Nat) (c : Nat)) with h | h
  · exact absurd (hiff.mp ((hspec r c).1.trans h)) hnot
  · exact (hspec r c).1.trans h

/-- Witness for C1 on the glider field at cell `(1, 1)`. -/
theorem C1_NewGeneration_rule_witness :
    ∃ g n, NewGeneration ROWS COLS (fieldOf [(0, 1), (1, 2), (2, 0), (2, 1), (2, 2)] DEAD) = some g ∧
      countAliveNeighbours ((1 : Fin 20) : Nat) ((1 : Fin 20) : Nat)
        (fieldOf [(0, 1), (1, 2), (2, 0), (2, 1), (2, 2)] DEAD) = some n ∧
      ((g.cellAt 1 1).current = ALIVE ↔
        (((fieldOf [(0, 1), (1, 2), (2, 0), (2, 1), (2, 2)] DEAD).cellAt 1 1).current = ALIVE ∧
            (n = 2 ∨ n = 3)) ∨
        (((fieldOf [(0, 1), (1, 2), (2, 0), (2, 1), (2, 2)] DEAD).cellAt 1 1).current = DEAD ∧
            n = 3)) ∧
      (¬((((fieldOf [(0, 1), (1, 2), (2, 0), (2, 1), (2, 2)] DEAD).cellAt 1 1).current = ALIVE ∧
            (n = 2 ∨ n = 3)) ∨
          (((fieldOf [(0, 1), (1, 2), (2, 0), (2, 1), (2, 2)] DEAD).cellAt 1 1).current = DEAD ∧
            n = 3)) →
        (g.cellAt 1 1).current = DEAD) :=
  C1_NewGeneration_rule (fieldOf [(0, 1), (1, 2), (2, 0), (2, 1), (2, 2)] DEAD) 1 1
    (Or.inr (by decide))

/-- C2: for every 20x20 field and every in-range cell `(r, c)`,
`countAliveNeighbours` returns the number of offsets `(dr, dc)` of
`{-1,0,1} x {-1,0,1}` other than `(0, 0)` such that `(r + dr, c + dc)` lies on
the grid and the cell there is `ALIVE`; the offset `(0, 0)` is not among those
counted and a position off the grid holds no state to count. -/
theorem C2_countAliveNeighbours_counts (f : Field) (r c : Fin 20) :
    countAliveNeighbours (r : Nat) (c : Nat) f =
        some ((neighbourOffsets.countP fun d =>
          decide (f.current? ((r : Nat) + d.1) ((c : Nat) + d.2) = some ALIVE) : Nat) : Int) ∧
      (0, 0) ∉ neighbourOffsets ∧
      (∀ d ∈ neighbourOffsets, d.1 ∈ [-1, 0, 1] ∧ d.2 ∈ [-1, 0, 1]) ∧
      (∀ x y : Int, (x < 0 ∨ 20 ≤ x ∨ y < 0 ∨ 20 ≤ y) → f.current? x y = none) ∧
      (∀ r1 c1 : Fin 20, f.current? (r1 : Nat) (c1 : Nat) = some (f.cellAt r1 c1).current) := by
  refine ⟨countAliveNeighbours_eq f _ _, by decide, by decide, ?_, current?_coe f⟩
  intro x y h
  exact current?_none f x y (by omega)

/-! ## Seeding and concrete patterns -/

theorem fieldOf_cellAt (cells : List (Nat × Nat)) (nxt : Char) (r c : Fin 20) :
    (fieldOf cells nxt).cellAt r c =
      { current := if (r.val, c.val) ∈ cells then ALIVE else DEAD, next := nxt } := by
  have hc := c.isLt
  have e1 : (r.val * 20 + c.val) / 20 = r.val := by omega
  have e2 : (r.val * 20 + c.val) % 20 = c.val := by omega
  simp only [fieldOf, Field.cellAt, e1, e2]

/-- `clearField` on the 20x20 field: every `current` is `DEAD`, every `next` is
untouched. -/
theorem clearField_spec (f : Field) :
    ∃ g, clearField ROWS COLS f = some g ∧
      ∀ r c : Fin 20, (g.cellAt r c).current = DEAD ∧
        (g.cellAt r c).next = (f.cellAt r c).next := by
  have hs := scan_inv
    (fun k (t : Field) => ∀ r c : Fin 20, (t.cellAt r c).next = (f.cellAt r c).next ∧
      (t.cellAt r c).current =
        if ((r : Nat) : Int) * 20 + ((c : Nat) : Int) < k then DEAD
        else (f.cellAt r c).current)
    (fun r c (fld : Field) => fld.storeCurrent COLS r c DEAD)
    f (fun r c => ⟨rfl, by rw [if_neg (by omega)]⟩) ?_
  · obtain ⟨g, hg, hI⟩ := hs
    refine ⟨g, hg, fun r c => ⟨?_, (hI r c).1⟩⟩
    rw [(hI r c).2, if_pos (by omega)]
  · intro r c t hI
    obtain ⟨t1, ht1, hcell⟩ := storeCurrent_coe t r c DEAD
    refine ⟨t1, ht1, fun r1 c1 => ?_⟩
    rw [hcell r1 c1]
    by_cases e : r1 = r ∧ c1 = c
    · obtain ⟨rfl, rfl⟩ := e
      simp only [and_self, if_true]
      refine ⟨(hI r1 c1).1, ?_⟩
      rw [if_pos (by omega)]
    · rw [if_neg e]
      refine ⟨(hI r1 c1).1, ?_⟩
      rw [(hI r1 c1).2]
      have hne : ¬(r1.val * 20 + c1.val = r.val * 20 + c.val) := fun q => e ((flat_inj _ _ _ _).mp q)
      by_cases hlt : ((r1 : Nat) : Int) * 20 + ((c1 : Nat) : Int) < ((r : Nat) : Int) * 20 + ((c : Nat) : Int)
      · rw [if_pos hlt, if_pos (by omega)]
      · rw [if_neg hlt, if_neg (by omega)]

theorem storeCurrent_nat (field : Field) (r c : Nat) (hr : r < 20) (hc : c < 20) (v : Char) :
    ∃ g, field.storeCurrent 20 (r : Int) (c : Int) v = some g ∧
      ∀ r1 c1 : Fin 20,
        (g.cellAt r1 c1).current =
          (if r1.val = r ∧ c1.val = c then v else (field.cellAt r1 c1).current) ∧
        (g.cellAt r1 c1).next = (field.cellAt r1 c1).next := by
  obtain ⟨g, hg, hcell⟩ := storeCurrent_coe field ⟨r, hr⟩ ⟨c, hc⟩ v
  refine ⟨g, hg, fun r1 c1 => ?_⟩
  rw [hcell r1 c1]
  by_cases e : r1 = ⟨r, hr⟩ ∧ c1 = ⟨c, hc⟩
  · obtain ⟨rfl, rfl⟩ := e
    simp
  · have e2 : ¬(r1.val = r ∧ c1.val = c) := fun q => e ⟨Fin.ext q.1, Fin.ext q.2⟩
    rw [if_neg e, if_neg e2]
    exact ⟨rfl, rfl⟩

/-- `loadGlider` on the 20x20 field: the five glider cells become `ALIVE`,
nothing else changes. -/
theorem loadGlider_spec (f : Field) :
    ∃ g, loadGlider ROWS COLS f = some g ∧
      ∀ r c : Fin 20,
        (g.cellAt r c).current =
          (if (r.val, c.val) ∈ [(0, 1), (1, 2), (2, 0), (2, 1), (2, 2)] then ALIVE
            else (f.cellAt r c).current) ∧
        (g.cellAt r c).next = (f.cellAt r c).next := by
  obtain ⟨g1, h1, hg1⟩ := storeCurrent_nat f 0 1 (by omega) (by omega) ALIVE
  obtain ⟨g2, h2, hg2⟩ := storeCurrent_nat g1 1 2 (by omega) (by omega) ALIVE
  obtain ⟨g3, h3, hg3⟩ := storeCurrent_nat g2 2 0 (by omega) (by omega) ALIVE
  obtain ⟨g4, h4, hg4⟩ := storeCurrent_nat g3 2 1 (by omega) (by omega) ALIVE
  obtain ⟨g5, h5, hg5⟩ := storeCurrent_nat g4 2 2 (by omega) (by omega) ALIVE
  have e1 : f.storeCurrent 20 0 1 ALIVE = some g1 := h1
  have e2 : g1.storeCurrent 20 1 2 ALIVE = some g2 := h2
  have e3 : g2.storeCurrent 20 2 0 ALIVE = some g3 := h3
  have e4 : g3.storeCurrent 20 2 1 ALIVE = some g4 := h4
  have e5 : g4.storeCurrent 20 2 2 ALIVE = some g5 := h5
  refine ⟨g5, ?_, fun r c => ⟨?_, ?_⟩⟩
  · simp only [loadGlider, e1, e2, e3, e4, e5, Option.some_bind]
  · rw [(hg5 r c).1, (hg4 r c).1, (hg3 r c).1, (hg2 r c).1, (hg1 r c).1]
    simp only [List.mem_cons, Prod.mk.injEq, List.mem_singleton, List.mem_nil_iff, or_false]
    split_ifs <;> first | rfl | (exfalso; tauto)
  · rw [(hg5 r c).2, (hg4 r c).2, (hg3 r c).2, (hg2 r c).2, (hg1 r c).2]

/-- One generation of a listed pattern: when the rule maps the pattern `cells`
to the pattern `cells1` cell by cell, `NewGeneration` maps every field showing
`cells` to a field showing `cells1`. -/
theorem pattern_step (cells cells1 : List (Nat × Nat))
    (hchk : ∀ r c : Fin 20,
      nextState ((fieldOf cells DEAD).cellAt r c).current
        (aliveNeighbourCount (fieldOf cells DEAD) (r : Nat) (c : Nat)) =
      ((fieldOf cells1 DEAD).cellAt r c).current)
    (f : Field)
    (hf : ∀ r c : Fin 20, (f.cellAt r c).current = ((fieldOf cells DEAD).cellAt r c).current) :
    ∃ g, NewGeneration ROWS COLS f = some g ∧
      ∀ r c : Fin 20, (g.cellAt r c).current = ((fieldOf cells1 DEAD).cellAt r c).current := by
  obtain ⟨g, hg, hs⟩ := NewGeneration_spec f
  refine ⟨g, hg, fun r c => ?_⟩
  rw [(hs r c).1, hf r c, aliveNeighbourCount_congr (fieldOf cells DEAD) f hf]
  exact hchk r c

/-! ## The glider -/

set_option maxRecDepth 100000 in
/-- The rule maps generation 0 of the glider to generation 1, cell by cell. -/
theorem glider_gen1 : ∀ r c : Fin 20,
    nextState ((fieldOf [(0, 1), (1, 2), (2, 0), (2, 1), (2, 2)] DEAD).cellAt r c).current
      (aliveNeighbourCount (fieldOf [(0, 1), (1, 2), (2, 0), (2, 1), (2, 2)] DEAD) (r : Nat) (c : Nat)) =
    ((fieldOf [(1, 0), (1, 2), (2, 1), (2, 2), (3, 1)] DEAD).cellAt r c).current := by
  decide!

set_option maxRecDepth 100000 in
/-- The rule maps generation 1 of the glider to generation 2, cell by cell. -/
theorem glider_gen2 : ∀ r c : Fin 20,
    nextState ((fieldOf [(1, 0), (1, 2), (2, 1), (2, 2), (3, 1)] DEAD).cellAt r c).current
      (aliveNeighbourCount (fieldOf [(1, 0), (1, 2), (2, 1), (2, 2), (3, 1)] DEAD) (r : Nat) (c : Nat)) =
    ((fieldOf [(1, 2), (2, 0), (2, 2), (3, 1), (3, 2)] DEAD).cellAt r c).current := by
  decide!

set_option maxRecDepth 100000 in
/-- The rule maps generation 2 of the glider to generation 3, cell by cell. -/
theorem glider_gen3 : ∀ r c : Fin 20,
    nextState ((fieldOf [(1, 2), (2, 0), (2, 2), (3, 1), (3, 2)] DEAD).cellAt r c).current
      (aliveNeighbourCount (fieldOf [(1, 2), (2, 0), (2, 2), (3, 1), (3, 2)] DEAD) (r : Nat) (c : Nat)) =
    ((fieldOf [(1, 1), (2, 2), (2, 3), (3, 1), (3, 2)] DEAD).cellAt r c).current := by
  decide!

set_option maxRecDepth 100000 in
/-- The rule maps generation 3 of the glider to generation 4, cell by cell. -/
theorem glider_gen4 : ∀ r c : Fin 20,
    nextState ((fieldOf [(1, 1), (2, 2), (2, 3), (3, 1), (3, 2)] DEAD).cellAt r c).current
      (aliveNeighbourCount (fieldOf [(1, 1), (2, 2), (2, 3), (3, 1), (3, 2)] DEAD) (r : Nat) (c : Nat)) =
    ((fieldOf [(1, 2), (2, 3), (3, 1), (3, 2), (3, 3)] DEAD).cellAt r c).current := by
  decide!

/-- C4: from any field, `clearField`, then `loadGlider`, then four calls of
`NewGeneration` all return, and the field they leave has exactly the cells
`(1,2)`, `(2,3)`, `(3,1)`, `(3,2)`, `(3,3)` `ALIVE` (the glider moved by
`(+1,+1)`) and every other cell `DEAD`. -/
theorem C4_glider_four_generations (f0 : Field) :
    ∃ g, (((((clearField ROWS COLS f0).bind (loadGlider ROWS COLS)).bind
        (NewGeneration ROWS COLS)).bind (NewGeneration ROWS COLS)).bind
        (NewGeneration ROWS COLS)).bind (NewGeneration ROWS COLS) = some g ∧
      ∀ r c : Fin 20, (g.cellAt r c).current =
        if (r.val, c.val) ∈ [(1, 2), (2, 3), (3, 1), (3, 2), (3, 3)] then ALIVE else DEAD := by
  obtain ⟨f1, hf1, hc1⟩ := clearField_spec f0
  obtain ⟨f2, hf2, hc2⟩ := loadGlider_spec f1
  have h0 : ∀ r c : Fin 20, (f2.cellAt r c).current =
      ((fieldOf [(0, 1), (1, 2), (2, 0), (2, 1), (2, 2)] DEAD).cellAt r c).current := by
    intro r c
    rw [(hc2 r c).1, (hc1 r c).1, fieldOf_cellAt]
  obtain ⟨g1, hg1, hs1⟩ := pattern_step _ _ glider_gen1 f2 h0
  obtain ⟨g2, hg2, hs2⟩ := pattern_step _ _ glider_gen2 g1 hs1
  obtain ⟨g3, hg3, hs3⟩ := pattern_step _ _ glider_gen3 g2 hs2
  obtain ⟨g4, hg4, hs4⟩ := pattern_step _ _ glider_gen4 g3 hs3
  refine ⟨g4, ?_, fun r c => ?_⟩
  · rw [hf1, Option.some_bind, hf2, Option.some_bind, hg1, Option.some_bind, hg2,
      Option.some_bind, hg3, Option.some_bind, hg4]
  · rw [hs4 r c, fieldOf_cellAt]

/-! ## The block -/

/-- The rule applied to a 2x2 block with top-left corner `(R, C)`, seen from an
arbitrary position `(x, y)`: the state does not change. -/
theorem block_rule (R C x y : Int) :
    nextState (if (x = R ∨ x = R + 1) ∧ (y = C ∨ y = C + 1) then ALIVE else DEAD)
      ((if (x - 1 = R ∨ x - 1 = R + 1) ∧ (y - 1 = C ∨ y - 1 = C + 1) then (1 : Int) else 0)
        + (if (x - 1 = R ∨ x - 1 = R + 1) ∧ (y = C ∨ y = C + 1) then (1 : Int) else 0)
        + (if (x - 1 = R ∨ x - 1 = R + 1) ∧ (y + 1 = C ∨ y + 1 = C + 1) then (1 : Int) else 0)
        + (if (x = R ∨ x = R + 1) ∧ (y - 1 = C ∨ y - 1 = C + 1) then (1 : Int) else 0)
        + (if (x = R ∨ x = R + 1) ∧ (y + 1 = C ∨ y + 1 = C + 1) then (1 : Int) else 0)
        + (if (x + 1 = R ∨ x + 1 = R + 1) ∧ (y - 1 = C ∨ y - 1 = C + 1) then (1 : Int) else 0)
        + (if (x + 1 = R ∨ x + 1 = R + 1) ∧ (y = C ∨ y = C + 1) then (1 : Int) else 0)
        + (if (x + 1 = R ∨ x + 1 = R + 1) ∧ (y + 1 = C ∨ y + 1 = C + 1) then (1 : Int) else 0)) =
    (if (x = R ∨ x = R + 1) ∧ (y = C ∨ y = C + 1) then ALIVE else DEAD) := by
  have hx : x ≤ R - 2 ∨ x = R - 1 ∨ x = R ∨ x = R + 1 ∨ x = R + 2 ∨ R + 3 ≤ x := by omega
  have hy : y ≤ C - 2 ∨ y = C - 1 ∨ y = C ∨ y = C + 1 ∨ y = C + 2 ∨ C + 3 ≤ y := by omega
  rcases hx with hx | hx | hx | hx | hx | hx <;>
    rcases hy with hy | hy | hy | hy | hy | hy <;>
    (repeat (first | rw [if_pos (by omega)] | rw [if_neg (by omega)])) <;>
    decide

theorem aliveInd_block (f : Field) (r c : Nat) (hr : 1 ≤ r ∧ r ≤ 17) (hc : 1 ≤ c ∧ c ≤ 17)
    (hf : ∀ i j : Fin 20, (f.cellAt i j).current =
      if (i.val = r ∨ i.val = r + 1) ∧ (j.val = c ∨ j.val = c + 1) then ALIVE else DEAD)
    (x y : Int) :
    aliveInd f x y =
      if (x = (r : Int) ∨ x = (r : Int) + 1) ∧ (y = (c : Int) ∨ y = (c : Int) + 1) then 1
      else 0 := by
  by_cases hin : (0 ≤ x ∧ x < 20) ∧ (0 ≤ y ∧ y < 20)
  · obtain ⟨i, rfl⟩ := exists_fin_of_bounds x hin.1.1 hin.1.2
    obtain ⟨j, rfl⟩ := exists_fin_of_bounds y hin.2.1 hin.2.2
    rw [aliveInd_coe, hf i j]
    by_cases hb : (i.val = r ∨ i.val = r + 1) ∧ (j.val = c ∨ j.val = c + 1)
    · rw [if_pos hb, if_pos rfl, if_pos (by omega)]
    · have hne : DEAD ≠ ALIVE := fun e => ALIVE_ne_DEAD e.symm
      rw [if_neg hb, if_neg hne, if_neg (by omega)]
  · rw [aliveInd_off_grid f x y (by omega), if_neg (by omega)]

/-- C5: for every position `(r, c)` with `1 <= r <= 17` and `1 <= c <= 17`, a
field whose `ALIVE` cells are exactly the 2x2 block `(r,c)`, `(r,c+1)`,
`(r+1,c)`, `(r+1,c+1)`, all other cells `DEAD`, is a fixed point of
`NewGeneration`: every cell keeps its current state. -/
theorem C5_block_still_life (f : Field) (r c : Nat) (hr : 1 ≤ r ∧ r ≤ 17)
    (hc : 1 ≤ c ∧ c ≤ 17)
    (hf : ∀ i j : Fin 20, (f.cellAt i j).current =
      if (i.val = r ∨ i.val = r + 1) ∧ (j.val = c ∨ j.val = c + 1) then ALIVE else DEAD) :
    ∃ g, NewGeneration ROWS COLS f = some g ∧
      ∀ i j : Fin 20, (g.cellAt i j).current = (f.cellAt i j).current := by
  obtain ⟨g, hg, hs⟩ := NewGeneration_spec f
  refine ⟨g, hg, fun i j => ?_⟩
  have hcur : (f.cellAt i j).current =
      if (((i : Nat) : Int) = (r : Int) ∨ ((i : Nat) : Int) = (r : Int) + 1) ∧
        (((j : Nat) : Int) = (c : Int) ∨ ((j : Nat) : Int) = (c : Int) + 1) then ALIVE
      else DEAD := by
    rw [hf i j]
    by_cases hb : (i.val = r ∨ i.val = r + 1) ∧ (j.val = c ∨ j.val = c + 1)
    · rw [if_pos hb, if_pos (by omega)]
    · rw [if_neg hb, if_neg (by omega)]
  rw [(hs i j).1, aliveNeighbourCount_eq_sum]
  simp only [aliveInd_block f r c hr hc hf]
  rw [hcur]
  exact block_rule r c i j

/-- Witness for C5: the block with top-left corner `(5, 5)`. -/
theorem C5_block_still_life_witness :
    ∃ g, NewGeneration ROWS COLS (fieldOf [(5, 5), (5, 6), (6, 5), (6, 6)] DEAD) = some g ∧
      ∀ i j : Fin 20, (g.cellAt i j).current =
        ((fieldOf [(5, 5), (5, 6), (6, 5), (6, 6)] DEAD).cellAt i j).current :=
  C5_block_still_life (fieldOf [(5, 5), (5, 6), (6, 5), (6, 6)] DEAD) 5 5
    ⟨by decide, by decide⟩ ⟨by decide, by decide⟩ (by decide)

/-! ## Dead fields, lone cells, bounds -/

theorem aliveNeighbourCount_eq_zero (f : Field)
    (h : ∀ r c : Fin 20, (f.cellAt r c).current ≠ ALIVE) (r c : Int) :
    aliveNeighbourCount f r c = 0 := by
  rw [aliveNeighbourCount_eq_sum]
  simp only [aliveInd_eq_zero_of_none_alive f h]
  rfl

/-- C6: `NewGeneration` applied to a field in which every cell is `DEAD` returns
a field in which every cell is `DEAD`. -/
theorem C6_dead_stays_dead (f : Field)
    (hdead : ∀ r c : Fin 20, (f.cellAt r c).current = DEAD) :
    ∃ g, NewGeneration ROWS COLS f = some g ∧
      ∀ r c : Fin 20, (g.cellAt r c).current = DEAD := by
  obtain ⟨g, hg, hs⟩ := NewGeneration_spec f
  refine ⟨g, hg, fun r c => ?_⟩
  have hne : ∀ r c : Fin 20, (f.cellAt r c).current ≠ ALIVE := fun r c e =>
    ALIVE_ne_DEAD (e.symm.trans (hdead r c))
  rw [(hs r c).1, aliveNeighbourCount_eq_zero f hne, hdead r c]
  decide

/-- Witness for C6: the all-`DEAD` field with `ALIVE` in every next-buffer. -/
theorem C6_dead_stays_dead_witness :
    ∃ g, NewGeneration ROWS COLS (fun _ => { current := DEAD, next := ALIVE }) = some g ∧
      ∀ r c : Fin 20, (g.cellAt r c).current = DEAD :=
  C6_dead_stays_dead (fun _ => { current := DEAD, next := ALIVE }) (fun _ _ => rfl)

theorem aliveInd_eq_zero_of_ne (f : Field) (r c : Fin 20)
    (honly : ∀ r1 c1 : Fin 20, (f.cellAt r1 c1).current = ALIVE → r1 = r ∧ c1 = c)
    (x y : Int) (hxy : ¬(x = ((r : Nat) : Int) ∧ y = ((c : Nat) : Int))) :
    aliveInd f x y = 0 := by
  by_cases hin : (0 ≤ x ∧ x < 20) ∧ (0 ≤ y ∧ y < 20)
  · obtain ⟨i, rfl⟩ := exists_fin_of_bounds x hin.1.1 hin.1.2
    obtain ⟨j, rfl⟩ := exists_fin_of_bounds y hin.2.1 hin.2.2
    rw [aliveInd_coe, if_neg]
    intro ha
    obtain ⟨rfl, rfl⟩ := honly i j ha
    exact hxy ⟨rfl, rfl⟩
  · exact aliveInd_off_grid f x y (by omega)

theorem aliveNeighbourCount_le_one_of_lone (f : Field) (r c : Fin 20)
    (honly : ∀ r1 c1 : Fin 20, (f.cellAt r1 c1).current = ALIVE → r1 = r ∧ c1 = c)
    (x y : Int) : aliveNeighbourCount f x y ≤ 1 := by
  rw [aliveNeighbourCount_eq_sum]
  have key : ∀ a b : Int, 0 ≤ aliveInd f a b ∧ aliveInd f a b ≤ 1 ∧
      ((a = ((r : Nat) : Int) ∧ b = ((c : Nat) : Int)) ∨ aliveInd f a b = 0) := by
    intro a b
    refine ⟨aliveInd_nonneg f a b, aliveInd_le_one f a b, ?_⟩
    by_cases hab : a = ((r : Nat) : Int) ∧ b = ((c : Nat) : Int)
    · exact Or.inl hab
    · exact Or.inr (aliveInd_eq_zero_of_ne f r c honly a b hab)
  have k1 := key (x - 1) (y - 1)
  have k2 := key (x - 1) y
  have k3 := key (x - 1) (y + 1)
  have k4 := key x (y - 1)
  have k5 := key x (y + 1)
  have k6 := key (x + 1) (y - 1)
  have k7 := key (x + 1) y
  have k8 := key (x + 1) (y + 1)
  omega

theorem aliveNeighbourCount_self_of_lone (f : Field) (r c : Fin 20)
    (honly : ∀ r1 c1 : Fin 20, (f.cellAt r1 c1).current = ALIVE → r1 = r ∧ c1 = c) :
    aliveNeighbourCount f (r : Nat) (c : Nat) = 0 := by
  rw [aliveNeighbourCount_eq_sum,
    aliveInd_eq_zero_of_ne f r c honly _ _ (by omega),
    aliveInd_eq_zero_of_ne f r c honly _ _ (by omega),
    aliveInd_eq_zero_of_ne f r c honly _ _ (by omega),
    aliveInd_eq_zero_of_ne f r c honly _ _ (by omega),
    aliveInd_eq_zero_of_ne f r c honly _ _ (by omega),
    aliveInd_eq_zero_of_ne f r c honly _ _ (by omega),
    aliveInd_eq_zero_of_ne f r c honly _ _ (by omega),
    aliveInd_eq_zero_of_ne f r c honly _ _ (by omega)]
  rfl

/-- C7: for every field and every cell `(r, c)` that is `ALIVE`,
`NewGeneration` returns a field in which `(r, c)` is `DEAD` whenever
`countAliveNeighbours (r, c)` is 0 on the field before the call; and when
`(r, c)` is the only `ALIVE` cell of the field, every cell is `DEAD`
afterwards. -/
theorem C7_isolated_cell_dies (f : Field) (r c : Fin 20)
    (halive : (f.cellAt r c).current = ALIVE) :
    ∃ g, NewGeneration ROWS COLS f = some g ∧
      (countAliveNeighbours (r : Nat) (c : Nat) f = some 0 → (g.cellAt r c).current = DEAD) ∧
      ((∀ r1 c1 : Fin 20, (f.cellAt r1 c1).current = ALIVE → r1 = r ∧ c1 = c) →
        ∀ r1 c1 : Fin 20, (g.cellAt r1 c1).current = DEAD) := by
  obtain ⟨g, hg, hs⟩ := NewGeneration_spec f
  refine ⟨g, hg, ?_, ?_⟩
  · intro h0
    rw [countAliveNeighbours_eq] at h0
    rw [(hs r c).1, Option.some.inj h0, halive]
    decide
  · intro honly r1 c1
    rw [(hs r1 c1).1]
    by_cases e : r1 = r ∧ c1 = c
    · obtain ⟨rfl, rfl⟩ := e
      rw [aliveNeighbourCount_self_of_lone f r1 c1 honly, halive]
      decide
    · have hna : (f.cellAt r1 c1).current ≠ ALIVE := fun ha => e (honly r1 c1 ha)
      have hle := aliveNeighbourCount_le_one_of_lone f r c honly (r1 : Nat) (c1 : Nat)
      unfold nextState
      rw [if_neg hna, if_neg (by omega)]

set_option maxRecDepth 100000 in
/-- Witness for C7: the field whose only `ALIVE` cell is `(5, 5)`. -/
theorem C7_isolated_cell_dies_witness :
    ∃ g, NewGeneration ROWS COLS (fieldOf [(5, 5)] DEAD) = some g ∧
      (g.cellAt 5 5).current = DEAD ∧
      ∀ r1 c1 : Fin 20, (g.cellAt r1 c1).current = DEAD :=
  (C7_isolated_cell_dies (fieldOf [(5, 5)] DEAD) 5 5 (by decide)).elim fun g hg =>
    ⟨g, hg.1, hg.2.1 (by decide), hg.2.2 (by decide)⟩

theorem aliveInd_allAlive (f : Field) (hall : ∀ r c : Fin 20, (f.cellAt r c).current = ALIVE)
    (x y : Int) (hx : 0 ≤ x ∧ x < 20) (hy : 0 ≤ y ∧ y < 20) : aliveInd f x y = 1 := by
  obtain ⟨i, rfl⟩ := exists_fin_of_bounds x hx.1 hx.2
  obtain ⟨j, rfl⟩ := exists_fin_of_bounds y hy.1 hy.2
  rw [aliveInd_coe, if_pos (hall i j)]

/-- C8: for every 20x20 field and every in-range cell, `countAliveNeighbours`
returns a value between 0 and 8, at most 3 at each of the four corners and at
most 5 on every edge cell; on a field in which every cell is `ALIVE` the value
is exactly 3 at the corners, 5 on the edge cells that are not corners and 8 at
the interior cells. -/
theorem C8_neighbour_count_bounds (f : Field) (r c : Fin 20) :
    ∃ n, countAliveNeighbours (r : Nat) (c : Nat) f = some n ∧
      0 ≤ n ∧ n ≤ 8 ∧
      ((r.val = 0 ∨ r.val = 19) ∧ (c.val = 0 ∨ c.val = 19) → n ≤ 3) ∧
      ((r.val = 0 ∨ r.val = 19 ∨ c.val = 0 ∨ c.val = 19) → n ≤ 5) ∧
      ((∀ r1 c1 : Fin 20, (f.cellAt r1 c1).current = ALIVE) →
        ((r.val = 0 ∨ r.val = 19) ∧ (c.val = 0 ∨ c.val = 19) → n = 3) ∧
        ((r.val = 0 ∨ r.val = 19 ∨ c.val = 0 ∨ c.val = 19) ∧
          ¬((r.val = 0 ∨ r.val = 19) ∧ (c.val = 0 ∨ c.val = 19)) → n = 5) ∧
        (¬(r.val = 0 ∨ r.val = 19 ∨ c.val = 0 ∨ c.val = 19) → n = 8)) := by
  refine ⟨aliveNeighbourCount f (r : Nat) (c : Nat), countAliveNeighbours_eq f _ _, ?_⟩
  rw [aliveNeighbourCount_eq_sum]
  have hr := r.isLt
  have hc := c.isLt
  have key : ∀ a b : Int, 0 ≤ aliveInd f a b ∧ aliveInd f a b ≤ 1 ∧
      ((a < 0 ∨ 20 ≤ a ∨ b < 0 ∨ 20 ≤ b) → aliveInd f a b = 0) :=
    fun a b => ⟨aliveInd_nonneg f a b, aliveInd_le_one f a b, aliveInd_off_grid f a b⟩
  have k1 := key ((r : Nat) - 1) ((c : Nat) - 1)
  have k2 := key ((r : Nat) - 1) (c : Nat)
  have k3 := key ((r : Nat) - 1) ((c : Nat) + 1)
  have k4 := key (r : Nat) ((c : Nat) - 1)
  have k5 := key (r : Nat) ((c : Nat) + 1)
  have k6 := key ((r : Nat) + 1) ((c : Nat) - 1)
  have k7 := key ((r : Nat) + 1) (c : Nat)
  have k8 := key ((r : Nat) + 1) ((c : Nat) + 1)
  refine ⟨by omega, by omega, by omega, by omega, ?_⟩
  intro hall
  have full : ∀ a b : Int, (0 ≤ a ∧ a < 20) → (0 ≤ b ∧ b < 20) → aliveInd f a b = 1 :=
    fun a b ha hb => aliveInd_allAlive f hall a b ha hb
  have a1 := full ((r : Nat) - 1) ((c : Nat) - 1)
  have a2 := full ((r : Nat) - 1) (c : Nat)
  have a3 := full ((r : Nat) - 1) ((c : Nat) + 1)
  have a4 := full (r : Nat) ((c : Nat) - 1)
  have a5 := full (r : Nat) ((c : Nat) + 1)
  have a6 := full ((r : Nat) + 1) ((c : Nat) - 1)
  have a7 := full ((r : Nat) + 1) (c : Nat)
  have a8 := full ((r : Nat) + 1) ((c : Nat) + 1)
  refine ⟨by omega, by omega, by omega⟩

/-- Witness for C8: the corner `(0, 0)` of the all-`ALIVE` field has count 3. -/
theorem C8_neighbour_count_bounds_witness :
    ∃ n, countAliveNeighbours ((0 : Fin 20) : Nat) ((0 : Fin 20) : Nat) allAlive = some n ∧
      0 ≤ n ∧ n ≤ 8 ∧ n ≤ 3 ∧ n ≤ 5 ∧ n = 3 :=
  (C8_neighbour_count_bounds allAlive 0 0).elim fun n hn =>
    ⟨n, hn.1, hn.2.1, hn.2.2.1, hn.2.2.2.1 (by decide), hn.2.2.2.2.1 (by decide),
      (hn.2.2.2.2.2 (fun _ _ => rfl)).1 (by decide)⟩

/-! ## The boundary -/

theorem aliveInd_eq_of_agree (f g : Field) (x y : Int)
    (h : ∀ i j : Fin 20, ((i : Nat) : Int) = x → ((j : Nat) : Int) = y →
      (f.cellAt i j).current = (g.cellAt i j).current) :
    aliveInd f x y = aliveInd g x y := by
  by_cases hin : (0 ≤ x ∧ x < 20) ∧ (0 ≤ y ∧ y < 20)
  · obtain ⟨i, rfl⟩ := exists_fin_of_bounds x hin.1.1 hin.1.2
    obtain ⟨j, rfl⟩ := exists_fin_of_bounds y hin.2.1 hin.2.2
    rw [aliveInd_coe, aliveInd_coe, h i j rfl rfl]
  · rw [aliveInd_off_grid f x y (by omega), aliveInd_off_grid g x y (by omega)]

theorem aliveNeighbourCount_eq_of_agree (f g : Field) (r c : Int)
    (h : ∀ i j : Fin 20, chebyshev (i : Nat) (j : Nat) r c = 1 →
      (f.cellAt i j).current = (g.cellAt i j).current) :
    aliveNeighbourCount f r c = aliveNeighbourCount g r c := by
  have key : ∀ x y : Int, chebyshev x y r c = 1 → aliveInd f x y = aliveInd g x y := by
    intro x y hxy
    refine aliveInd_eq_of_agree f g x y (fun i j hi hj => h i j ?_)
    rw [hi, hj]
    exact hxy
  rw [aliveNeighbourCount_eq_sum, aliveNeighbourCount_eq_sum,
    key (r - 1) (c - 1) (by unfold chebyshev; omega),
    key (r - 1) c (by unfold chebyshev; omega),
    key (r - 1) (c + 1) (by unfold chebyshev; omega),
    key r (c - 1) (by unfold chebyshev; omega),
    key r (c + 1) (by unfold chebyshev; omega),
    key (r + 1) (c - 1) (by unfold chebyshev; omega),
    key (r + 1) c (by unfold chebyshev; omega),
    key (r + 1) (c + 1) (by unfold chebyshev; omega)]

/-- C9: the boundary is clamped, not toroidal.  For every in-range cell
`(r, c)` and any two fields that agree on all cells at Chebyshev distance
exactly 1 from `(r, c)`, `countAliveNeighbours (r, c)` returns the same value on
both; so for a cell in column 0 the value does not depend on the cells of
column 19, and for a cell in row 0 it does not depend on the cells of row 19. -/
theorem C9_clamped_boundary (f g : Field) (r c : Fin 20) :
    ((∀ i j : Fin 20, chebyshev (i : Nat) (j : Nat) (r : Nat) (c : Nat) = 1 →
        (f.cellAt i j).current = (g.cellAt i j).current) →
      ∃ n, countAliveNeighbours (r : Nat) (c : Nat) f = some n ∧
        countAliveNeighbours (r : Nat) (c : Nat) g = some n) ∧
    (c.val = 0 →
      (∀ i j : Fin 20, j.val ≠ 19 → (f.cellAt i j).current = (g.cellAt i j).current) →
      ∃ n, countAliveNeighbours (r : Nat) (c : Nat) f = some n ∧
        countAliveNeighbours (r : Nat) (c : Nat) g = some n) ∧
    (r.val = 0 →
      (∀ i j : Fin 20, i.val ≠ 19 → (f.cellAt i j).current = (g.cellAt i j).current) →
      ∃ n, countAliveNeighbours (r : Nat) (c : Nat) f = some n ∧
        countAliveNeighbours (r : Nat) (c : Nat) g = some n) := by
  have main : (∀ i j : Fin 20, chebyshev (i : Nat) (j : Nat) (r : Nat) (c : Nat) = 1 →
        (f.cellAt i j).current = (g.cellAt i j).current) →
      ∃ n, countAliveNeighbours (r : Nat) (c : Nat) f = some n ∧
        countAliveNeighbours (r : Nat) (c : Nat) g = some n := by
    intro h
    refine ⟨aliveNeighbourCount f (r : Nat) (c : Nat), countAliveNeighbours_eq f _ _, ?_⟩
    rw [countAliveNeighbours_eq, aliveNeighbourCount_eq_of_agree f g _ _ h]
  refine ⟨main, ?_, ?_⟩
  · intro hc0 h
    refine main (fun i j hd => h i j ?_)
    unfold chebyshev at hd
    omega
  · intro hr0 h
    refine main (fun i j hd => h i j ?_)
    unfold chebyshev at hd
    omega

set_option maxRecDepth 100000 in
/-- Witness for C9 at cells `(4, 0)` and `(0, 4)`: fields that differ only far
from the cell, in column 19 and in row 19. -/
theorem C9_clamped_boundary_witness :
    (∃ n, countAliveNeighbours ((4 : Fin 20) : Nat) ((0 : Fin 20) : Nat)
        (fieldOf [(3, 0), (4, 1), (4, 19), (5, 19)] DEAD) = some n ∧
      countAliveNeighbours ((4 : Fin 20) : Nat) ((0 : Fin 20) : Nat)
        (fieldOf [(3, 0), (4, 1), (3, 19)] ALIVE) = some n) ∧
    (∃ n, countAliveNeighbours ((4 : Fin 20) : Nat) ((0 : Fin 20) : Nat)
        (fieldOf [(3, 0), (4, 1), (4, 19), (5, 19)] DEAD) = some n ∧
      countAliveNeighbours ((4 : Fin 20) : Nat) ((0 : Fin 20) : Nat)
        (fieldOf [(3, 0), (4, 1), (3, 19)] DEAD) = some n) ∧
    (∃ n, countAliveNeighbours ((0 : Fin 20) : Nat) ((4 : Fin 20) : Nat)
        (fieldOf [(0, 3), (1, 4), (19, 4), (19, 5)] DEAD) = some n ∧
      countAliveNeighbours ((0 : Fin 20) : Nat) ((4 : Fin 20) : Nat)
        (fieldOf [(0, 3), (1, 4), (19, 3)] DEAD) = some n) :=
  ⟨(C9_clamped_boundary (fieldOf [(3, 0), (4, 1), (4, 19), (5, 19)] DEAD)
      (fieldOf [(3, 0), (4, 1), (3, 19)] ALIVE) 4 0).1 (by decide),
    (C9_clamped_boundary (fieldOf [(3, 0), (4, 1), (4, 19), (5, 19)] DEAD)
      (fieldOf [(3, 0), (4, 1), (3, 19)] DEAD) 4 0).2.1 (by decide) (by decide),
    (C9_clamped_boundary (fieldOf [(0, 3), (1, 4), (19, 4), (19, 5)] DEAD)
      (fieldOf [(0, 3), (1, 4), (19, 3)] DEAD) 0 4).2.2 (by decide) (by decide)⟩

/-! ## Custom seeding -/

/-- C10 (the code at the failing input): `loadCustom` performs no range check
and has no failure result.  On the cleared field, reading the coordinates `3,3`
and then `0,25`, it returns normally, and the store for `0,25` lands on cell
`(1, 5)` of the field: that cell was `DEAD` and is `ALIVE` afterwards, although
no coordinate of the input names it. -/
theorem C10_loadCustom_out_of_range (f0 : Field) :
    ∃ f g, clearField ROWS COLS f0 = some f ∧
      loadCustom ROWS COLS f (3, 3) [(0, 25)] = some g ∧
      (f.cellAt 1 5).current = DEAD ∧
      (g.cellAt 3 3).current = ALIVE ∧ (g.cellAt 1 5).current = ALIVE := by
  obtain ⟨f, hf, hs⟩ := clearField_spec f0
  exact ⟨f, _, hf, rfl, (hs 1 5).1, rfl, rfl⟩

/-! ## Seeding through `initField` -/

theorem storeCurrent_int (field : Field) (r c : Int) (hr : 0 ≤ r ∧ r < 20)
    (hc : 0 ≤ c ∧ c < 20) (v : Char) :
    ∃ g, field.storeCurrent 20 r c v = some g ∧
      ∀ r1 c1 : Fin 20,
        (g.cellAt r1 c1).current =
          (if ((r1 : Nat) : Int) = r ∧ ((c1 : Nat) : Int) = c then v
            else (field.cellAt r1 c1).current) ∧
        (g.cellAt r1 c1).next = (field.cellAt r1 c1).next := by
  obtain ⟨rr, rfl⟩ := exists_fin_of_bounds r hr.1 hr.2
  obtain ⟨cc, rfl⟩ := exists_fin_of_bounds c hc.1 hc.2
  obtain ⟨g, hg, hcell⟩ := storeCurrent_nat field rr.val cc.val rr.isLt cc.isLt v
  refine ⟨g, hg, fun r1 c1 => ⟨?_, (hcell r1 c1).2⟩⟩
  rw [(hcell r1 c1).1]
  by_cases e : r1.val = rr.val ∧ c1.val = cc.val
  · rw [if_pos e, if_pos (by omega)]
  · rw [if_neg e, if_neg (by omega)]

/-- `loadCustom` on in-range coordinates: exactly the listed cells become
`ALIVE`, nothing else changes. -/
theorem loadCustom_spec (ps : List (Int × Int)) :
    ∀ (f : Field) (p : Int × Int),
      (∀ q ∈ p :: ps, (0 ≤ q.1 ∧ q.1 < 20) ∧ (0 ≤ q.2 ∧ q.2 < 20)) →
      ∃ g, loadCustom ROWS COLS f p ps = some g ∧
        ∀ r c : Fin 20,
          (g.cellAt r c).current =
            (if (((r : Nat) : Int), ((c : Nat) : Int)) ∈ p :: ps then ALIVE
              else (f.cellAt r c).current) ∧
          (g.cellAt r c).next = (f.cellAt r c).next := by
  induction ps with
  | nil =>
    intro f p hin
    have hp := hin p (List.mem_cons_self _ _)
    obtain ⟨g, hg, hcell⟩ := storeCurrent_int f p.1 p.2 hp.1 hp.2 ALIVE
    refine ⟨g, by unfold loadCustom; exact hg, fun r c => ⟨?_, (hcell r c).2⟩⟩
    rw [(hcell r c).1]
    simp only [List.mem_singleton, Prod.ext_iff]
  | cons q qs ih =>
    intro f p hin
    have hp := hin p (List.mem_cons_self _ _)
    obtain ⟨g1, hg1, hcell1⟩ := storeCurrent_int f p.1 p.2 hp.1 hp.2 ALIVE
    obtain ⟨g, hg, hcell⟩ := ih g1 q (fun x hx => hin x (List.mem_cons_of_mem _ hx))
    refine ⟨g, ?_, fun r c => ⟨?_, ?_⟩⟩
    · unfold loadCustom
      show (f.storeCurrent 20 p.1 p.2 ALIVE).bind (fun f1 => loadCustom ROWS COLS f1 q qs) = some g
      rw [hg1, Option.some_bind]
      exact hg
    · rw [(hcell r c).1, (hcell1 r c).1]
      by_cases h1 : (((r : Nat) : Int), ((c : Nat) : Int)) ∈ q :: qs
      · rw [if_pos h1, if_pos (List.mem_cons_of_mem _ h1)]
      · rw [if_neg h1]
        by_cases h2 : ((r : Nat) : Int) = p.1 ∧ ((c : Nat) : Int) = p.2
        · rw [if_pos h2, if_pos]
          exact List.mem_cons.mpr (Or.inl (Prod.ext h2.1 h2.2))
        · rw [if_neg h2, if_neg]
          intro hm
          rcases List.mem_cons.mp hm with e | e
          · exact h2 ⟨congrArg Prod.fst e, congrArg Prod.snd e⟩
          · exact h1 e
    · rw [(hcell r c).2, (hcell1 r c).2]

/-- C11: for every non-empty sequence `p :: ps` of in-range coordinates and
every starting field, clearing and then running `loadCustom` on the sequence
(which is what `initField` does for a choice other than G, S, R) returns a
field in which a cell is `ALIVE` if and only if its coordinate occurs in the
sequence, and every other cell is `DEAD`. -/
theorem C11_loadCustom_in_range (f0 : Field) (choice : Char) (rand : Nat → Nat)
    (p : Int × Int) (ps : List (Int × Int))
    (hchoice : choice ∉ ['g', 'G', 's', 'S', 'r', 'R'])
    (hin : ∀ q ∈ p :: ps, (0 ≤ q.1 ∧ q.1 < 20) ∧ (0 ≤ q.2 ∧ q.2 < 20)) :
    ∃ g, (clearField ROWS COLS f0).bind (fun f => loadCustom ROWS COLS f p ps) = some g ∧
      initField ROWS COLS f0 choice rand p ps = some g ∧
      ∀ r c : Fin 20,
        ((g.cellAt r c).current = ALIVE ↔ (((r : Nat) : Int), ((c : Nat) : Int)) ∈ p :: ps) ∧
        ((((r : Nat) : Int), ((c : Nat) : Int)) ∉ p :: ps → (g.cellAt r c).current = DEAD) := by
  obtain ⟨f, hf, hclear⟩ := clearField_spec f0
  obtain ⟨g, hg, hcell⟩ := loadCustom_spec ps f p hin
  have hcomp : (clearField ROWS COLS f0).bind (fun f => loadCustom ROWS COLS f p ps) = some g := by
    rw [hf, Option.some_bind, hg]
  simp only [List.mem_cons, List.mem_singleton, List.mem_nil_iff, not_or, or_false] at hchoice
  refine ⟨g, hcomp, ?_, fun r c => ?_⟩
  · unfold initField
    rw [hf, Option.some_bind, if_neg (by tauto), if_neg (by tauto), if_neg (by tauto)]
    exact hg
  · have hcur := (hcell r c).1
    rw [(hclear r c).1] at hcur
    have hne : DEAD ≠ ALIVE := fun e => ALIVE_ne_DEAD e.symm
    by_cases hm : (((r : Nat) : Int), ((c : Nat) : Int)) ∈ p :: ps
    · rw [if_pos hm] at hcur
      exact ⟨⟨fun _ => hm, fun _ => hcur⟩, fun h => absurd hm h⟩
    · rw [if_neg hm] at hcur
      exact ⟨⟨fun h => absurd (hcur.symm.trans h) hne, fun h => absurd h hm⟩, fun _ => hcur⟩

/-- Witness for C11: the coordinates `3,3`, `0,1`, `19,19` and the choice `c`. -/
theorem C11_loadCustom_in_range_witness :
    ∃ g, (clearField ROWS COLS allAlive).bind
        (fun f => loadCustom ROWS COLS f (3, 3) [(0, 1), (19, 19)]) = some g ∧
      initField ROWS COLS allAlive 'c' (fun _ => 0) (3, 3) [(0, 1), (19, 19)] = some g ∧
      ∀ r c : Fin 20,
        ((g.cellAt r c).current = ALIVE ↔
          (((r : Nat) : Int), ((c : Nat) : Int)) ∈ [((3 : Int), (3 : Int)), (0, 1), (19, 19)]) ∧
        ((((r : Nat) : Int), ((c : Nat) : Int)) ∉ [((3 : Int), (3 : Int)), (0, 1), (19, 19)] →
          (g.cellAt r c).current = DEAD) :=
  C11_loadCustom_in_range allAlive 'c' (fun _ => 0) (3, 3) [(0, 1), (19, 19)]
    (by decide) (by decide)

/-- `loadSemaphore` on the 20x20 field: the three cells of row 8 become
`ALIVE`, nothing else changes. -/
theorem loadSemaphore_spec (f : Field) :
    ∃ g, loadSemaphore ROWS COLS f = some g ∧
      ∀ r c : Fin 20,
        (g.cellAt r c).current =
          (if (r.val, c.val) ∈ [(8, 1), (8, 2), (8, 3)] then ALIVE
            else (f.cellAt r c).current) ∧
        (g.cellAt r c).next = (f.cellAt r c).next := by
  obtain ⟨g1, h1, hg1⟩ := storeCurrent_nat f 8 1 (by omega) (by omega) ALIVE
  obtain ⟨g2, h2, hg2⟩ := storeCurrent_nat g1 8 2 (by omega) (by omega) ALIVE
  obtain ⟨g3, h3, hg3⟩ := storeCurrent_nat g2 8 3 (by omega) (by omega) ALIVE
  have e1 : f.storeCurrent 20 8 1 ALIVE = some g1 := h1
  have e2 : g1.storeCurrent 20 8 2 ALIVE = some g2 := h2
  have e3 : g2.storeCurrent 20 8 3 ALIVE = some g3 := h3
  refine ⟨g3, ?_, fun r c => ⟨?_, ?_⟩⟩
  · simp only [loadSemaphore, e1, e2, e3, Option.some_bind]
  · rw [(hg3 r c).1, (hg2 r c).1, (hg1 r c).1]
    simp only [List.mem_cons, Prod.mk.injEq, List.mem_singleton, List.mem_nil_iff, or_false]
    split_ifs <;> first | rfl | (exfalso; tauto)
  · rw [(hg3 r c).2, (hg2 r c).2, (hg1 r c).2]

/-- C12: for every starting field, the glider seeding (`initField` with the
choice `g` or `G`, that is `clearField` followed by `loadGlider`) returns a
field whose `ALIVE` cells are exactly `(0,1)`, `(1,2)`, `(2,0)`, `(2,1)`,
`(2,2)` and in which every other cell is `DEAD`. -/
theorem C12_glider_seed (f0 : Field) (rand : Nat → Nat) (p : Int × Int)
    (ps : List (Int × Int)) :
    ∃ g, initField ROWS COLS f0 'g' rand p ps = some g ∧
      initField ROWS COLS f0 'G' rand p ps = some g ∧
      (clearField ROWS COLS f0).bind (loadGlider ROWS COLS) = some g ∧
      ∀ r c : Fin 20, (g.cellAt r c).current =
        if (r.val, c.val) ∈ [(0, 1), (1, 2), (2, 0), (2, 1), (2, 2)] then ALIVE else DEAD := by
  obtain ⟨f, hf, hclear⟩ := clearField_spec f0
  obtain ⟨g, hg, hcell⟩ := loadGlider_spec f
  refine ⟨g, ?_, ?_, ?_, fun r c => ?_⟩
  · unfold initField
    rw [hf, Option.some_bind, if_pos (by decide)]
    exact hg
  · unfold initField
    rw [hf, Option.some_bind, if_pos (by decide)]
    exact hg
  · rw [hf, Option.some_bind, hg]
  · rw [(hcell r c).1, (hclear r c).1]

/-- C13: for every starting field, the semaphore seeding (`initField` with the
choice `s` or `S`, that is `clearField` followed by `loadSemaphore`) returns a
field whose `ALIVE` cells are exactly `(8,1)`, `(8,2)`, `(8,3)` and in which
every other cell is `DEAD`. -/
theorem C13_semaphore_seed (f0 : Field) (rand : Nat → Nat) (p : Int × Int)
    (ps : List (Int × Int)) :
    ∃ g, initField ROWS COLS f0 's' rand p ps = some g ∧
      initField ROWS COLS f0 'S' rand p ps = some g ∧
      (clearField ROWS COLS f0).bind (loadSemaphore ROWS COLS) = some g ∧
      ∀ r c : Fin 20, (g.cellAt r c).current =
        if (r.val, c.val) ∈ [(8, 1), (8, 2), (8, 3)] then ALIVE else DEAD := by
  obtain ⟨f, hf, hclear⟩ := clearField_spec f0
  obtain ⟨g, hg, hcell⟩ := loadSemaphore_spec f
  refine ⟨g, ?_, ?_, ?_, fun r c => ?_⟩
  · unfold initField
    rw [hf, Option.some_bind, if_neg (by decide), if_pos (by decide)]
    exact hg
  · unfold initField
    rw [hf, Option.some_bind, if_neg (by decide), if_pos (by decide)]
    exact hg
  · rw [hf, Option.some_bind, hg]
  · rw [(hcell r c).1, (hclear r c).1]

/-- C14: for every field, `clearField` with `rows = cols = 20` returns a field
in which the current state of every cell is `DEAD` and the next-buffer of every
cell is what it was. -/
theorem C14_clearField (f : Field) :
    ∃ g, clearField ROWS COLS f = some g ∧
      ∀ r c : Fin 20, (g.cellAt r c).current = DEAD ∧
        (g.cellAt r c).next = (f.cellAt r c).next :=
  clearField_spec f

/-- C17: for every field, whatever characters its cells hold in `current` and
`next`, `NewGeneration` returns a field in which every cell's current state is
`ALIVE` or `DEAD` and every cell's next-buffer equals its current state. -/
theorem C17_two_valued (f : Field) :
    ∃ g, NewGeneration ROWS COLS f = some g ∧
      ∀ r c : Fin 20,
        ((g.cellAt r c).current = ALIVE ∨ (g.cellAt r c).current = DEAD) ∧
        (g.cellAt r c).next = (g.cellAt r c).current := by
  obtain ⟨g, hg, hs⟩ := NewGeneration_spec f
  refine ⟨g, hg, fun r c => ⟨?_, ?_⟩⟩
  · rw [(hs r c).1]
    exact nextState_alive_or_dead _ _
  · rw [(hs r c).1, (hs r c).2]

/-! ## The semaphore -/

set_option maxRecDepth 100000 in
/-- The rule maps the horizontal semaphore to the vertical one, cell by cell. -/
theorem semaphore_gen1 : ∀ r c : Fin 20,
    nextState ((fieldOf [(8, 1), (8, 2), (8, 3)] DEAD).cellAt r c).current
      (aliveNeighbourCount (fieldOf [(8, 1), (8, 2), (8, 3)] DEAD) (r : Nat) (c : Nat)) =
    ((fieldOf [(7, 2), (8, 2), (9, 2)] DEAD).cellAt r c).current := by
  decide!

set_option maxRecDepth 100000 in
/-- The rule maps the vertical semaphore back to the horizontal one. -/
theorem semaphore_gen2 : ∀ r c : Fin 20,
    nextState ((fieldOf [(7, 2), (8, 2), (9, 2)] DEAD).cellAt r c).current
      (aliveNeighbourCount (fieldOf [(7, 2), (8, 2), (9, 2)] DEAD) (r : Nat) (c : Nat)) =
    ((fieldOf [(8, 1), (8, 2), (8, 3)] DEAD).cellAt r c).current := by
  decide!

/-- C18: the semaphore oscillates with period 2.  From any field, `clearField`
and `loadSemaphore` followed by one `NewGeneration` return a field whose
`ALIVE` cells are exactly `(7,2)`, `(8,2)`, `(9,2)`, and a second
`NewGeneration` returns a field whose `ALIVE` cells are exactly `(8,1)`,
`(8,2)`, `(8,3)`; all other cells are `DEAD`. -/
theorem C18_semaphore_period_two (f0 : Field) :
    ∃ g1 g2,
      ((clearField ROWS COLS f0).bind (loadSemaphore ROWS COLS)).bind
        (NewGeneration ROWS COLS) = some g1 ∧
      NewGeneration ROWS COLS g1 = some g2 ∧
      (∀ r c : Fin 20, (g1.cellAt r c).current =
        if (r.val, c.val) ∈ [(7, 2), (8, 2), (9, 2)] then ALIVE else DEAD) ∧
      (∀ r c : Fin 20, (g2.cellAt r c).current =
        if (r.val, c.val) ∈ [(8, 1), (8, 2), (8, 3)] then ALIVE else DEAD) := by
  obtain ⟨f1, hf1, hc1⟩ := clearField_spec f0
  obtain ⟨f2, hf2, hc2⟩ := loadSemaphore_spec f1
  have h0 : ∀ r c : Fin 20, (f2.cellAt r c).current =
      ((fieldOf [(8, 1), (8, 2), (8, 3)] DEAD).cellAt r c).current := by
    intro r c
    rw [(hc2 r c).1, (hc1 r c).1, fieldOf_cellAt]
  obtain ⟨g1, hg1, hs1⟩ := pattern_step _ _ semaphore_gen1 f2 h0
  obtain ⟨g2, hg2, hs2⟩ := pattern_step _ _ semaphore_gen2 g1 hs1
  refine ⟨g1, g2, ?_, hg2, fun r c => ?_, fun r c => ?_⟩
  · rw [hf1, Option.some_bind, hf2, Option.some_bind, hg1]
  · rw [hs1 r c, fieldOf_cellAt]
  · rw [hs2 r c, fieldOf_cellAt]

/-! ## Access traces -/

theorem readsCell_eq (rows cols r c : Int) (acc : List (Int × Int)) :
    (if 0 ≤ c ∧ c < COLS then
      if ¬(r = rows ∧ c = cols) then some (acc ++ [(r, c)])
      else some acc
    else some acc) = some (acc ++ readsAt rows cols r c) := by
  unfold readsAt
  by_cases hc : 0 ≤ c ∧ c < COLS
  · by_cases hcen : r = rows ∧ c = cols
    · rw [if_pos hc, if_neg (not_not.mpr hcen), if_neg (fun h => h.2 hcen), List.append_nil]
    · rw [if_pos hc, if_pos hcen, if_pos ⟨hc, hcen⟩]
  · rw [if_neg hc, if_neg (fun h => hc h.1), List.append_nil]

theorem readsRowStep_eq (rows cols r : Int) (acc : List (Int × Int)) :
    (if 0 ≤ r ∧ r < ROWS then
      forRange (cols - 1) (cols + 2) (fun c reads =>
        if 0 ≤ c ∧ c < COLS then
          if ¬(r = rows ∧ c = cols) then some (reads ++ [(r, c)])
          else some reads
        else some reads) acc
    else some acc) = some (acc ++ readsRow rows cols r) := by
  unfold readsRow
  by_cases hr : 0 ≤ r ∧ r < ROWS
  · have hbody : (fun (c : Int) (reads : List (Int × Int)) =>
        if 0 ≤ c ∧ c < COLS then
          if ¬(r = rows ∧ c = cols) then some (reads ++ [(r, c)])
          else some reads
        else some reads) = fun c reads => some (reads ++ readsAt rows cols r c) := by
      funext c reads
      exact readsCell_eq rows cols r c reads
    rw [if_pos hr, hbody, forRange_three, if_pos hr]
    simp only [Option.some_bind, List.append_assoc]
  · rw [if_neg hr, if_neg hr, List.append_nil]

theorem countAliveNeighboursReads_eq (rows cols : Int) :
    countAliveNeighboursReads rows cols =
      some (readsRow rows cols (rows - 1) ++ readsRow rows cols rows
        ++ readsRow rows cols (rows + 1)) := by
  unfold countAliveNeighboursReads
  have hbody : (fun (r : Int) (reads : List (Int × Int)) =>
      if 0 ≤ r ∧ r < ROWS then
        forRange (cols - 1) (cols + 2) (fun c reads =>
          if 0 ≤ c ∧ c < COLS then
            if ¬(r = rows ∧ c = cols) then some (reads ++ [(r, c)])
            else some reads
          else some reads) reads
      else some reads) = fun r reads => some (reads ++ readsRow rows cols r) := by
    funext r reads
    exact readsRowStep_eq rows cols r reads
  rw [hbody, forRange_three]
  simp only [Option.some_bind, List.nil_append]

theorem mem_readsAt (rows cols r c : Int) (p : Int × Int) (hp : p ∈ readsAt rows cols r c) :
    p = (r, c) ∧ (0 ≤ c ∧ c < 20) ∧ ¬(r = rows ∧ c = cols) := by
  unfold readsAt at hp
  by_cases h : (0 ≤ c ∧ c < 20) ∧ ¬(r = rows ∧ c = cols)
  · rw [if_pos h] at hp
    exact ⟨List.mem_singleton.mp hp, h.1, h.2⟩
  · rw [if_neg h] at hp
    exact absurd hp (List.not_mem_nil _)

theorem mem_readsRow (rows cols r : Int) (p : Int × Int) (hp : p ∈ readsRow rows cols r) :
    p.1 = r ∧ (0 ≤ p.1 ∧ p.1 < 20) ∧ (0 ≤ p.2 ∧ p.2 < 20) ∧ ¬(p.1 = rows ∧ p.2 = cols) ∧
      (p.2 = cols - 1 ∨ p.2 = cols ∨ p.2 = cols + 1) := by
  unfold readsRow at hp
  by_cases h : 0 ≤ r ∧ r < 20
  · rw [if_pos h] at hp
    rcases List.mem_append.mp hp with h1 | h1
    · rcases List.mem_append.mp h1 with h2 | h2
      · obtain ⟨rfl, hc, hcen⟩ := mem_readsAt _ _ _ _ _ h2
        exact ⟨rfl, h, hc, hcen, Or.inl rfl⟩
      · obtain ⟨rfl, hc, hcen⟩ := mem_readsAt _ _ _ _ _ h2
        exact ⟨rfl, h, hc, hcen, Or.inr (Or.inl rfl)⟩
    · obtain ⟨rfl, hc, hcen⟩ := mem_readsAt _ _ _ _ _ h1
      exact ⟨rfl, h, hc, hcen, Or.inr (Or.inr rfl)⟩
  · rw [if_neg h] at hp
    exact absurd hp (List.not_mem_nil _)

/-- Every position in the trace of `countAliveNeighbours rows cols` is on the
grid, is not the centre, and is adjacent to it. -/
theorem mem_reads (rows cols : Int) (l : List (Int × Int))
    (hl : countAliveNeighboursReads rows cols = some l) (p : Int × Int) (hp : p ∈ l) :
    (0 ≤ p.1 ∧ p.1 < 20) ∧ (0 ≤ p.2 ∧ p.2 < 20) ∧ ¬(p.1 = rows ∧ p.2 = cols) ∧
      chebyshev p.1 p.2 rows cols = 1 := by
  rw [countAliveNeighboursReads_eq] at hl
  have hl2 := Option.some.inj hl
  rw [← hl2] at hp
  have key : ∀ r, (r = rows - 1 ∨ r = rows ∨ r = rows + 1) → p ∈ readsRow rows cols r →
      (0 ≤ p.1 ∧ p.1 < 20) ∧ (0 ≤ p.2 ∧ p.2 < 20) ∧ ¬(p.1 = rows ∧ p.2 = cols) ∧
        chebyshev p.1 p.2 rows cols = 1 := by
    intro r hr hmem
    obtain ⟨h1, h2, h3, h4, h5⟩ := mem_readsRow rows cols r p hmem
    refine ⟨h2, h3, h4, ?_⟩
    unfold chebyshev
    omega
  rcases List.mem_append.mp hp with h1 | h1
  · rcases List.mem_append.mp h1 with h2 | h2
    · exact key _ (Or.inl rfl) h2
    · exact key _ (Or.inr (Or.inl rfl)) h2
  · exact key _ (Or.inr (Or.inr rfl)) h1

theorem countP_readsAt (f : Field) (rows cols r c : Int) :
    (((readsAt rows cols r c).countP fun p =>
      decide (f.current? p.1 p.2 = some ALIVE) : Nat) : Int) =
      if r = rows ∧ c = cols then 0 else aliveInd f r c := by
  unfold readsAt
  by_cases hcen : r = rows ∧ c = cols
  · rw [if_neg (fun h => h.2 hcen), if_pos hcen]
    rfl
  · rw [if_neg hcen]
    by_cases hc : 0 ≤ c ∧ c < 20
    · rw [if_pos ⟨hc, hcen⟩]
      unfold aliveInd
      by_cases ha : f.current? r c = some ALIVE
      · simp [ha]
      · simp [ha]
    · rw [if_neg (fun h => hc h.1), aliveInd_off_grid f r c (by omega)]
      rfl

theorem countP_readsRow (f : Field) (rows cols r : Int) :
    (((readsRow rows cols r).countP fun p =>
      decide (f.current? p.1 p.2 = some ALIVE) : Nat) : Int) =
      (if r = rows ∧ cols - 1 = cols then 0 else aliveInd f r (cols - 1))
        + (if r = rows ∧ cols = cols then 0 else aliveInd f r cols)
        + (if r = rows ∧ cols + 1 = cols then 0 else aliveInd f r (cols + 1)) := by
  unfold readsRow
  by_cases hr : 0 ≤ r ∧ r < 20
  · rw [if_pos hr, List.countP_append, List.countP_append]
    push_cast
    rw [countP_readsAt, countP_readsAt, countP_readsAt]
  · rw [if_neg hr, aliveInd_off_grid f r _ (by omega), aliveInd_off_grid f r _ (by omega),
      aliveInd_off_grid f r _ (by omega)]
    simp

/-- The value of `countAliveNeighbours` is the number of traced positions that
hold an `ALIVE` cell. -/
theorem countP_reads (f : Field) (rows cols : Int) :
    (((readsRow rows cols (rows - 1) ++ readsRow rows cols rows
        ++ readsRow rows cols (rows + 1)).countP fun p =>
      decide (f.current? p.1 p.2 = some ALIVE) : Nat) : Int) =
      aliveNeighbourCount f rows cols := by
  rw [List.countP_append, List.countP_append]
  push_cast
  rw [countP_readsRow, countP_readsRow, countP_readsRow, aliveNeighbourCount_eq_sum]
  have h1 : ¬(rows - 1 = rows) := by omega
  have h2 : ¬(rows + 1 = rows) := by omega
  have h3 : ¬(cols - 1 = cols) := by omega
  have h4 : ¬(cols + 1 = cols) := by omega
  simp only [h1, h2, h3, h4, false_and, and_false, if_false, and_self, if_true]
  ring


theorem load_ne_none (fld : Field) (r c : Int) (hr : 0 ≤ r ∧ r < 20) (hc : 0 ≤ c ∧ c < 20) :
    fld.load COLS r c ≠ none := by
  obtain ⟨rr, rfl⟩ := exists_fin_of_bounds r hr.1 hr.2
  obtain ⟨cc, rfl⟩ := exists_fin_of_bounds c hc.1 hc.2
  rw [load_coe]
  exact Option.some_ne_none _

/-- The trace of the scan of `NewGeneration` over the 20x20 field exists and
every position in it is on the grid. -/
theorem NewGenerationReads_spec :
    ∃ L, NewGenerationReads ROWS COLS = some L ∧
      ∀ p ∈ L, (0 ≤ p.1 ∧ p.1 < 20) ∧ (0 ≤ p.2 ∧ p.2 < 20) := by
  have hs := scan_inv
    (fun (_ : Int) (acc : List (Int × Int)) =>
      ∀ p ∈ acc, (0 ≤ p.1 ∧ p.1 < 20) ∧ (0 ≤ p.2 ∧ p.2 < 20))
    (fun r c acc => (countAliveNeighboursReads r c).bind fun l => some (acc ++ l ++ [(r, c)]))
    [] (fun p hp => absurd hp (List.not_mem_nil _)) ?_
  · exact hs
  · intro r c acc hI
    refine ⟨_, show (countAliveNeighboursReads (r : Nat) (c : Nat)).bind
      (fun l => some (acc ++ l ++ [(((r : Nat) : Int), ((c : Nat) : Int))])) = some _ by
        rw [countAliveNeighboursReads_eq, Option.some_bind], ?_⟩
    intro p hp
    rcases List.mem_append.mp hp with h1 | h1
    · rcases List.mem_append.mp h1 with h2 | h2
      · exact hI p h2
      · have hm := mem_reads (r : Nat) (c : Nat) _ (countAliveNeighboursReads_eq _ _) p h2
        exact ⟨hm.1, hm.2.1⟩
    · rw [List.mem_singleton.mp h1]
      have hr := r.isLt
      have hc := c.isLt
      exact ⟨⟨by omega, by omega⟩, ⟨by omega, by omega⟩⟩

/-- C15: for every in-range cell `(r, c)` of the 20x20 field, every position at
which `countAliveNeighbours (r, c)` reads the field has its row and its column
in `[0, 20)`, so the read finds a cell, and the value returned is the number of
those positions holding an `ALIVE` cell; likewise every position read while
`NewGeneration` scans the whole field is in range, and both functions
return. -/
theorem C15_reads_in_range (f : Field) (r c : Fin 20) :
    (∃ l n, countAliveNeighboursReads (r : Nat) (c : Nat) = some l ∧
      (∀ p ∈ l, (0 ≤ p.1 ∧ p.1 < 20) ∧ (0 ≤ p.2 ∧ p.2 < 20) ∧
        ∀ fld : Field, fld.load COLS p.1 p.2 ≠ none) ∧
      countAliveNeighbours (r : Nat) (c : Nat) f = some n ∧
      n = ((l.countP fun p => decide (f.current? p.1 p.2 = some ALIVE) : Nat) : Int)) ∧
    (∃ L g, NewGenerationReads ROWS COLS = some L ∧
      (∀ p ∈ L, (0 ≤ p.1 ∧ p.1 < 20) ∧ (0 ≤ p.2 ∧ p.2 < 20) ∧
        ∀ fld : Field, fld.load COLS p.1 p.2 ≠ none) ∧
      NewGeneration ROWS COLS f = some g) := by
  constructor
  · refine ⟨_, aliveNeighbourCount f (r : Nat) (c : Nat), countAliveNeighboursReads_eq _ _,
      fun p hp => ?_, countAliveNeighbours_eq f _ _, (countP_reads f _ _).symm⟩
    have hm := mem_reads (r : Nat) (c : Nat) _ (countAliveNeighboursReads_eq _ _) p hp
    exact ⟨hm.1, hm.2.1, fun fld => load_ne_none fld p.1 p.2 hm.1 hm.2.1⟩
  · obtain ⟨L, hL, hin⟩ := NewGenerationReads_spec
    obtain ⟨g, hg, _⟩ := NewGeneration_spec f
    exact ⟨L, g, hL, fun p hp =>
      ⟨(hin p hp).1, (hin p hp).2, fun fld => load_ne_none fld p.1 p.2 (hin p hp).1 (hin p hp).2⟩,
      hg⟩

/-! ## Random seeding -/

/-- `loadRandom` on the 20x20 field: 400 draws are consumed, the cell visited
as number `20 r + c` takes the draw with that number, and every next-buffer is
untouched. -/
theorem loadRandom_spec (f : Field) (rand : Nat → Nat) :
    ∃ g, loadRandom ROWS COLS f rand = some (g, 400) ∧
      ∀ r c : Fin 20,
        (g.cellAt r c).current =
          (if ((rand (r.val * 20 + c.val) : Nat) : Int) % 2 + 1 = 2 then ALIVE else DEAD) ∧
        (g.cellAt r c).next = (f.cellAt r c).next := by
  have hs := scan_inv
    (fun k (s : Field × Nat) => ((s.2 : Nat) : Int) = k ∧
      ∀ r c : Fin 20, (s.1.cellAt r c).next = (f.cellAt r c).next ∧
        (s.1.cellAt r c).current =
          if ((r : Nat) : Int) * 20 + ((c : Nat) : Int) < k then
            (if ((rand (r.val * 20 + c.val) : Nat) : Int) % 2 + 1 = 2 then ALIVE else DEAD)
          else (f.cellAt r c).current)
    (fun r c (s : Field × Nat) =>
      let randomnumber : Int := ((rand s.2 : Nat) : Int) % 2 + 1
      if randomnumber = 2 then
        (s.1.storeCurrent COLS r c ALIVE).map fun fld => (fld, s.2 + 1)
      else
        (s.1.storeCurrent COLS r c DEAD).map fun fld => (fld, s.2 + 1))
    (f, 0) ⟨rfl, fun r c => ⟨rfl, by rw [if_neg (by omega)]⟩⟩ ?_
  · obtain ⟨⟨g, k⟩, hg, hk, hI⟩ := hs
    have hk2 : k = 400 := by
      have : ((k : Nat) : Int) = 400 := hk
      omega
    subst hk2
    refine ⟨g, hg, fun r c => ⟨?_, (hI r c).1⟩⟩
    have h2 := (hI r c).2
    have hlt : ((r : Nat) : Int) * 20 + ((c : Nat) : Int) < 400 := by
      have := r.isLt
      have := c.isLt
      omega
    rw [if_pos hlt] at h2
    exact h2
  · rintro r c ⟨t, k⟩ ⟨hk, hI⟩
    have hk2 : k = r.val * 20 + c.val := by
      have : ((k : Nat) : Int) = ((r : Nat) : Int) * 20 + ((c : Nat) : Int) := hk
      omega
    subst hk2
    obtain ⟨t1, ht1, hcell⟩ := storeCurrent_nat t r.val c.val r.isLt c.isLt
      (if ((rand (r.val * 20 + c.val) : Nat) : Int) % 2 + 1 = 2 then ALIVE else DEAD)
    refine ⟨(t1, r.val * 20 + c.val + 1), ?_, ?_, fun r1 c1 => ⟨?_, ?_⟩⟩
    · show (if ((rand (r.val * 20 + c.val) : Nat) : Int) % 2 + 1 = 2 then
          (t.storeCurrent 20 (r : Nat) (c : Nat) ALIVE).map fun fld => (fld, r.val * 20 + c.val + 1)
        else
          (t.storeCurrent 20 (r : Nat) (c : Nat) DEAD).map fun fld => (fld, r.val * 20 + c.val + 1)) =
        some (t1, r.val * 20 + c.val + 1)
      by_cases hodd : ((rand (r.val * 20 + c.val) : Nat) : Int) % 2 + 1 = 2
      · rw [if_pos hodd] at ht1
        rw [if_pos hodd, ht1]
        rfl
      · rw [if_neg hodd] at ht1
        rw [if_neg hodd, ht1]
        rfl
    · show (((r.val * 20 + c.val + 1 : Nat)) : Int) = ((r : Nat) : Int) * 20 + ((c : Nat) : Int) + 1
      push_cast
      ring
    · rw [(hcell r1 c1).2]
      exact (hI r1 c1).1
    · rw [(hcell r1 c1).1]
      by_cases e : r1.val = r.val ∧ c1.val = c.val
      · have er : r1 = r := Fin.ext e.1
        have ec : c1 = c := Fin.ext e.2
        subst er
        subst ec
        have hlt : ((r1 : Nat) : Int) * 20 + ((c1 : Nat) : Int) <
            ((r1 : Nat) : Int) * 20 + ((c1 : Nat) : Int) + 1 := by omega
        rw [if_pos e, if_pos hlt]
      · rw [if_neg e, (hI r1 c1).2]
        by_cases hlt : ((r1 : Nat) : Int) * 20 + ((c1 : Nat) : Int) < ((r : Nat) : Int) * 20 + ((c : Nat) : Int)
        · have hlt2 : ((r1 : Nat) : Int) * 20 + ((c1 : Nat) : Int) <
              ((r : Nat) : Int) * 20 + ((c : Nat) : Int) + 1 := by omega
          rw [if_pos hlt, if_pos hlt2]
        · have hlt2 : ¬(((r1 : Nat) : Int) * 20 + ((c1 : Nat) : Int) <
              ((r : Nat) : Int) * 20 + ((c : Nat) : Int) + 1) := by
            have hc1 := c1.isLt
            have hc := c.isLt
            omega
          rw [if_neg hlt, if_neg hlt2]

/-- C16: for every sequence of draws and every starting field, `loadRandom`
returns after consuming exactly 400 draws; the cell `(r, c)`, visited as number
`20 r + c` in row-major order, takes the draw with that number and is `ALIVE`
exactly when `draw % 2 + 1 = 2`, that is when the draw is odd, and `DEAD`
otherwise; the states so produced are the same from any other starting
field, and the next-buffers are not touched. -/
theorem C16_loadRandom (rand : Nat → Nat) (f f2 : Field) :
    ∃ g g2, loadRandom ROWS COLS f rand = some (g, 400) ∧
      loadRandom ROWS COLS f2 rand = some (g2, 400) ∧
      ∀ r c : Fin 20,
        ((g.cellAt r c).current = ALIVE ↔ rand (r.val * 20 + c.val) % 2 = 1) ∧
        (rand (r.val * 20 + c.val) % 2 ≠ 1 → (g.cellAt r c).current = DEAD) ∧
        ((g.cellAt r c).current = ALIVE ↔
          ((rand (r.val * 20 + c.val) : Nat) : Int) % 2 + 1 = 2) ∧
        (g2.cellAt r c).current = (g.cellAt r c).current ∧
        (g.cellAt r c).next = (f.cellAt r c).next := by
  obtain ⟨g, hg, hs⟩ := loadRandom_spec f rand
  obtain ⟨g2, hg2, hs2⟩ := loadRandom_spec f2 rand
  refine ⟨g, g2, hg, hg2, fun r c => ?_⟩
  have hne : DEAD ≠ ALIVE := fun e => ALIVE_ne_DEAD e.symm
  have hcur := (hs r c).1
  have hcur2 := (hs2 r c).1
  by_cases hodd : ((rand (r.val * 20 + c.val) : Nat) : Int) % 2 + 1 = 2
  · rw [if_pos hodd] at hcur hcur2
    have h1 : rand (r.val * 20 + c.val) % 2 = 1 := by omega
    exact ⟨⟨fun _ => h1, fun _ => hcur⟩, fun h => absurd h1 h, ⟨fun _ => hodd, fun _ => hcur⟩,
      hcur2.trans hcur.symm, (hs r c).2⟩
  · rw [if_neg hodd] at hcur hcur2
    have h1 : ¬(rand (r.val * 20 + c.val) % 2 = 1) := by omega
    exact ⟨⟨fun h => absurd (hcur.symm.trans h) hne, fun h => absurd h h1⟩, fun _ => hcur,
      ⟨fun h => absurd (hcur.symm.trans h) hne, fun h => absurd h hodd⟩, hcur2.trans hcur.symm,
      (hs r c).2⟩

/-! ## Purity of the generation step -/

/-- C3: `NewGeneration` is a pure function of the current generation.  It
returns on every field, and (1) on two fields that agree on the current state
of every cell, whatever their next-buffers hold, the fields it returns agree on
the current state of every cell; (2) the new state of a cell `(r, c)` is already
fixed by the pre-call states of `(r, c)` and of the cells adjacent to it: two
fields that agree there, and differ anywhere else, give the same new state at
`(r, c)`; (3) the new state of every cell is the rule applied to the cell's
pre-call state and to `countAliveNeighbours` evaluated on the field as it was
before the call.  So no cell's new state depends on the already-computed new
state of another cell. -/
theorem C3_NewGeneration_pure (f1 f2 : Field) :
    ∃ g1 g2, NewGeneration ROWS COLS f1 = some g1 ∧ NewGeneration ROWS COLS f2 = some g2 ∧
      ((∀ r c : Fin 20, (f1.cellAt r c).current = (f2.cellAt r c).current) →
        ∀ r c : Fin 20, (g1.cellAt r c).current = (g2.cellAt r c).current) ∧
      (∀ r c : Fin 20,
        (∀ i j : Fin 20, chebyshev (i : Nat) (j : Nat) (r : Nat) (c : Nat) ≤ 1 →
          (f1.cellAt i j).current = (f2.cellAt i j).current) →
        (g1.cellAt r c).current = (g2.cellAt r c).current) ∧
      (∀ r c : Fin 20, ∃ n, countAliveNeighbours (r : Nat) (c : Nat) f1 = some n ∧
        (g1.cellAt r c).current = nextState (f1.cellAt r c).current n) := by
  obtain ⟨g1, hg1, hs1⟩ := NewGeneration_spec f1
  obtain ⟨g2, hg2, hs2⟩ := NewGeneration_spec f2
  refine ⟨g1, g2, hg1, hg2, ?_, ?_, ?_⟩
  · intro h r c
    rw [(hs1 r c).1, (hs2 r c).1, h r c, aliveNeighbourCount_congr f2 f1 h]
  · intro r c h
    have hself : (f1.cellAt r c).current = (f2.cellAt r c).current :=
      h r c (by unfold chebyshev; omega)
    have hnb : aliveNeighbourCount f1 (r : Nat) (c : Nat) =
        aliveNeighbourCount f2 (r : Nat) (c : Nat) :=
      aliveNeighbourCount_eq_of_agree f1 f2 _ _ (fun i j hd => h i j (le_of_eq hd))
    rw [(hs1 r c).1, (hs2 r c).1, hself, hnb]
  · intro r c
    exact ⟨aliveNeighbourCount f1 (r : Nat) (c : Nat), countAliveNeighbours_eq f1 _ _, (hs1 r c).1⟩

set_option maxRecDepth 100000 in
/-- Witness for C3: two glider fields that differ in every next-buffer, and a
glider field against one with further `ALIVE` cells away from cell `(1, 1)`. -/
theorem C3_NewGeneration_pure_witness :
    (∃ g1 g2,
      NewGeneration ROWS COLS (fieldOf [(0, 1), (1, 2), (2, 0), (2, 1), (2, 2)] ALIVE) = some g1 ∧
      NewGeneration ROWS COLS (fieldOf [(0, 1), (1, 2), (2, 0), (2, 1), (2, 2)] DEAD) = some g2 ∧
      ∀ r c : Fin 20, (g1.cellAt r c).current = (g2.cellAt r c).current) ∧
    (∃ g1 g2,
      NewGeneration ROWS COLS (fieldOf [(0, 1), (1, 2), (2, 0), (2, 1), (2, 2)] ALIVE) = some g1 ∧
      NewGeneration ROWS COLS
        (fieldOf [(0, 1), (1, 2), (2, 0), (2, 1), (2, 2), (0, 3), (1, 3), (3, 1), (9, 9)] DEAD) =
        some g2 ∧
      (g1.cellAt 1 1).current = (g2.cellAt 1 1).current) :=
  ⟨(C3_NewGeneration_pure (fieldOf [(0, 1), (1, 2), (2, 0), (2, 1), (2, 2)] ALIVE)
      (fieldOf [(0, 1), (1, 2), (2, 0), (2, 1), (2, 2)] DEAD)).elim fun g1 h1 =>
      h1.elim fun g2 h2 => ⟨g1, g2, h2.1, h2.2.1, h2.2.2.1 (fun _ _ => rfl)⟩,
    (C3_NewGeneration_pure (fieldOf [(0, 1), (1, 2), (2, 0), (2, 1), (2, 2)] ALIVE)
      (fieldOf [(0, 1), (1, 2), (2, 0), (2, 1), (2, 2), (0, 3), (1, 3), (3, 1), (9, 9)] DEAD)).elim
      fun g1 h1 => h1.elim fun g2 h2 => ⟨g1, g2, h2.1, h2.2.1, h2.2.2.2.1 1 1 (by decide)⟩⟩

end GameOfLife
